import Mathlib

/-!
# Scoped-ownership handle wrappers (`samples/XrUtility/XrHandle.h`)

A shallow embedding of the two class templates `xr::UniqueHandle` and
`xr::UniqueExtHandle`.

* A wrapper object is identified by its address (`Addr`).  The program state
  maps every address to the members of the wrapper living there, so that the
  two references taken by `operator=(UniqueHandle&&)` may alias.
* The destroy function is external.  Its only modelled effect is that the call
  is appended to a log kept in the state; its `XrResult` is ignored by the
  wrappers and therefore not modelled.
* The pointer returned by `Put` is the address of the wrapper whose `m_handle`
  member it points to; the native call that populates it is `fill`.
-/

namespace xr

/-- Values of the template parameter `HandleType`: an opaque integer-sized identifier. -/
abbrev HandleType := Nat

/-- Modelled from the spec: the macro `XR_NULL_HANDLE` of the native API header, which is
not part of this repository; the "null" sentinel value of a handle. -/
def XR_NULL_HANDLE : HandleType := 0

/-- Address of a wrapper object (`this`, `&other`). -/
abbrev Addr := Nat

/-! ## `UniqueHandle<HandleType, DestroyFunction>` -/

/-- Program state for wrappers of one instantiation of `UniqueHandle`:
the member `m_handle` of the wrapper at each address, and the arguments of the calls
made so far to the template parameter `DestroyFunction`, oldest first. -/
structure State where
  m_handle : Addr → HandleType
  calls : List HandleType

namespace UniqueHandle

/-- Every wrapper is empty (`HandleType m_handle{XR_NULL_HANDLE}`), nothing destroyed yet. -/
def init : State :=
  { m_handle := fun _ => XR_NULL_HANDLE, calls := [] }

/-- The source's `void Reset() noexcept`. -/
def Reset (this : Addr) (s : State) : State :=
  if s.m_handle this ≠ XR_NULL_HANDLE then
    { m_handle := Function.update s.m_handle this XR_NULL_HANDLE,
      calls := s.calls ++ [s.m_handle this] }
  else s

/-- The source's `HandleType Get() const noexcept`. -/
def Get (this : Addr) (s : State) : HandleType :=
  s.m_handle this

/-- The source's `HandleType* Put() noexcept`: `Reset()`, then `return &m_handle`.
The returned pointer is the address of the wrapper that owns the slot. -/
def Put (this : Addr) (s : State) : Addr × State :=
  (this, Reset this s)

/-- The native call storing `v` through a pointer obtained from `Put`. -/
def fill (slot : Addr) (v : HandleType) (s : State) : State :=
  { s with m_handle := Function.update s.m_handle slot v }

/-- The source's `UniqueHandle& operator=(UniqueHandle&& other) noexcept`. -/
def moveAssign (this other : Addr) (s : State) : State :=
  if s.m_handle this ≠ s.m_handle other then
    let s₁ := Reset this s
    let s₂ : State := { s₁ with m_handle := Function.update s₁.m_handle this (s₁.m_handle other) }
    { s₂ with m_handle := Function.update s₂.m_handle other XR_NULL_HANDLE }
  else s

/-- The source's `~UniqueHandle() noexcept`. -/
def destructor (this : Addr) (s : State) : State :=
  Reset this s

/-- The source's `UniqueHandle(UniqueHandle&& other) noexcept`: the member initialiser
`m_handle{XR_NULL_HANDLE}` runs for the new object, then `*this = std::move(other)`. -/
def moveConstruct (this other : Addr) (s : State) : State :=
  moveAssign this other { s with m_handle := Function.update s.m_handle this XR_NULL_HANDLE }

/-- One operation of a client program on a set of wrappers. -/
inductive Op where
  /-- A native creation call on `w.Put()`: `Put`, then the slot is filled with `v`. -/
  | acquire (w : Addr) (v : HandleType)
  /-- Call of `w.Get()`. -/
  | get (w : Addr)
  /-- Call of `w.Reset()`. -/
  | reset (w : Addr)
  /-- Move-assignment `dst = std::move(src)`. -/
  | move (dst src : Addr)
  /-- Destruction of `w` at the end of its scope. -/
  | destroy (w : Addr)
  deriving DecidableEq, Repr

/-- Effect of one operation on the state. -/
def step (op : Op) (s : State) : State :=
  match op with
  | .acquire w v => fill (Put w s).1 v (Put w s).2
  | .get _ => s
  | .reset w => Reset w s
  | .move dst src => moveAssign dst src s
  | .destroy w => destructor w s

/-- Effect of a finite sequence of operations, performed left to right. -/
def run (ops : List Op) (s : State) : State :=
  ops.foldl (fun st op => step op st) s

/-- Results of the `Get` operations of a sequence, in order. -/
def observe : List Op → State → List HandleType
  | [], _ => []
  | .get w :: ops, s => Get w s :: observe ops s
  | op :: ops, s => observe ops (step op s)

/-- The values written by the native calls of a sequence, in order. -/
def acquired : List Op → List HandleType
  | [] => []
  | .acquire _ v :: ops => v :: acquired ops
  | _ :: ops => acquired ops

/-- The wrappers a sequence of operations mentions. -/
def wrappers : List Op → List Addr
  | [] => []
  | .acquire w _ :: ops => w :: wrappers ops
  | .get w :: ops => w :: wrappers ops
  | .reset w :: ops => w :: wrappers ops
  | .move dst src :: ops => dst :: src :: wrappers ops
  | .destroy w :: ops => w :: wrappers ops

/-- Every native call of the sequence writes a non-null value that no earlier native call
of the sequence has written. -/
def Fresh (ops : List Op) : Prop :=
  XR_NULL_HANDLE ∉ acquired ops ∧ (acquired ops).Nodup

instance (ops : List Op) : Decidable (Fresh ops) := by
  unfold Fresh; infer_instance

/-- Destruction of each wrapper of a list, in order. -/
def destroyAll (ws : List Addr) (s : State) : State :=
  ws.foldl (fun st w => destructor w st) s

end UniqueHandle

/-! ## `UniqueExtHandle<HandleType>` -/

/-- Values of `PFN_DestroyFunction`: a function pointer, identified by the address of
the function. -/
abbrev PFN_DestroyFunction := Nat

/-- The null function pointer. -/
def nullptr : PFN_DestroyFunction := 0

/-- Program state for wrappers of one instantiation of `UniqueExtHandle`: the members
`m_handle` and `m_destroyer` of the wrapper at each address, and the destroy calls made
so far, oldest first, each with the function called and its argument. -/
structure ExtState where
  m_handle : Addr → HandleType
  m_destroyer : Addr → PFN_DestroyFunction
  calls : List (PFN_DestroyFunction × HandleType)

/-- Ways in which a member function stops instead of returning. -/
inductive Fault where
  /-- An `assert` failed. -/
  | assertion
  /-- A null function pointer was called. -/
  | nullCall
  deriving DecidableEq, Repr

/-- Result of running a member function: it returns, or it stops with a fault in
the given state. -/
inductive Outcome (α : Type) where
  | returned (a : α)
  | aborted (f : Fault) (s : ExtState)

/-- Sequencing: the continuation runs only when the first part returned. -/
def Outcome.andThen {α β : Type} (x : Outcome α) (k : α → Outcome β) : Outcome β :=
  match x with
  | .returned a => k a
  | .aborted f s => .aborted f s

namespace UniqueExtHandle

/-- Every wrapper is empty (`m_handle{XR_NULL_HANDLE}`, `m_destroyer{nullptr}`). -/
def init : ExtState :=
  { m_handle := fun _ => XR_NULL_HANDLE, m_destroyer := fun _ => nullptr, calls := [] }

/-- The source's `void Reset() noexcept`.  The call `m_destroyer(m_handle)` through a
null pointer has no defined behaviour; the model stops there. -/
def Reset (this : Addr) (s : ExtState) : Outcome ExtState :=
  if s.m_handle this ≠ XR_NULL_HANDLE then
    if s.m_destroyer this = nullptr then
      .aborted .nullCall s
    else
      .returned
        { m_handle := Function.update s.m_handle this XR_NULL_HANDLE,
          m_destroyer := Function.update s.m_destroyer this nullptr,
          calls := s.calls ++ [(s.m_destroyer this, s.m_handle this)] }
  else
    .returned { s with m_destroyer := Function.update s.m_destroyer this nullptr }

/-- The source's `HandleType Get() const noexcept`. -/
def Get (this : Addr) (s : ExtState) : HandleType :=
  s.m_handle this

/-- The source's `HandleType* Put(PFN_DestroyFunction destroyFunction) noexcept`.
`NDEBUG` tells whether the code is compiled with the macro `NDEBUG` defined: then
`assert(destroyFunction != nullptr)` expands to nothing, otherwise it stops the program
when its condition is false.  After the `assert` come `Reset()`,
`m_destroyer = destroyFunction` and `return &m_handle`. -/
def Put (NDEBUG : Bool) (this : Addr) (destroyFunction : PFN_DestroyFunction)
    (s : ExtState) : Outcome (Addr × ExtState) :=
  if NDEBUG = false ∧ destroyFunction = nullptr then
    .aborted .assertion s
  else
    (Reset this s).andThen fun s₁ =>
      .returned (this, { s₁ with m_destroyer := Function.update s₁.m_destroyer this destroyFunction })

/-- The native call storing `v` through a pointer obtained from `Put`. -/
def fill (slot : Addr) (v : HandleType) (s : ExtState) : ExtState :=
  { s with m_handle := Function.update s.m_handle slot v }

/-- The source's `UniqueExtHandle& operator=(UniqueExtHandle&& other) noexcept`. -/
def moveAssign (this other : Addr) (s : ExtState) : Outcome ExtState :=
  if s.m_handle this ≠ s.m_handle other ∨ s.m_destroyer this ≠ s.m_destroyer other then
    (Reset this s).andThen fun s₁ =>
      let s₂ : ExtState :=
        { s₁ with m_handle := Function.update s₁.m_handle this (s₁.m_handle other) }
      let s₃ : ExtState :=
        { s₂ with m_destroyer := Function.update s₂.m_destroyer this (s₂.m_destroyer other) }
      let s₄ : ExtState :=
        { s₃ with m_handle := Function.update s₃.m_handle other XR_NULL_HANDLE }
      .returned { s₄ with m_destroyer := Function.update s₄.m_destroyer other nullptr }
  else
    .returned s

/-- The source's `~UniqueExtHandle() noexcept`. -/
def destructor (this : Addr) (s : ExtState) : Outcome ExtState :=
  Reset this s

/-- The source's `UniqueExtHandle(UniqueExtHandle&& other) noexcept`: the member
initialisers run for the new object, then `*this = std::move(other)`. -/
def moveConstruct (this other : Addr) (s : ExtState) : Outcome ExtState :=
  moveAssign this other
    { s with
      m_handle := Function.update s.m_handle this XR_NULL_HANDLE,
      m_destroyer := Function.update s.m_destroyer this nullptr }

end UniqueExtHandle

/-- The calls `Reset` makes on a wrapper holding `h`: one call with `h`, unless `h` is null. -/
def released (h : HandleType) : List HandleType :=
  if h ≠ XR_NULL_HANDLE then [h] else []

/-- Ownership invariant of a state, relative to the list `A` of the values the native
calls have written so far: only values of `A` are held or were destroyed, a non-null value
is held by at most one wrapper and is then not in the log, no value is in the log twice,
and every value of `A` is held or in the log. -/
structure Owned (A : List HandleType) (s : State) : Prop where
  null_not_acquired : XR_NULL_HANDLE ∉ A
  held_acquired : ∀ w, s.m_handle w ≠ XR_NULL_HANDLE → s.m_handle w ∈ A
  calls_acquired : ∀ v, v ∈ s.calls → v ∈ A
  exclusive : ∀ w w', s.m_handle w ≠ XR_NULL_HANDLE → s.m_handle w = s.m_handle w' → w = w'
  held_not_destroyed : ∀ w, s.m_handle w ≠ XR_NULL_HANDLE → s.m_handle w ∉ s.calls
  calls_nodup : s.calls.Nodup
  accounted : ∀ v, v ∈ A → (∃ w, s.m_handle w = v) ∨ v ∈ s.calls

namespace UniqueExtHandle

/-- One operation of a client program on a set of `UniqueExtHandle` wrappers. -/
inductive Op where
  /-- A native creation call on `w.Put(f)`: `Put`, then the slot is filled with `v`. -/
  | acquire (w : Addr) (f : PFN_DestroyFunction) (v : HandleType)
  /-- Call of `w.Get()`. -/
  | get (w : Addr)
  /-- Call of `w.Reset()`. -/
  | reset (w : Addr)
  /-- Move-assignment `dst = std::move(src)`. -/
  | move (dst src : Addr)
  /-- Move-construction of a new wrapper `w` from `src`. -/
  | construct (w src : Addr)
  /-- Destruction of `w` at the end of its scope. -/
  | destroy (w : Addr)
  deriving DecidableEq, Repr

/-- Effect of one operation on the state, in a build with or without `NDEBUG`. -/
def step (NDEBUG : Bool) (op : Op) (e : ExtState) : Outcome ExtState :=
  match op with
  | .acquire w f v => (Put NDEBUG w f e).andThen fun p => .returned (fill p.1 v p.2)
  | .get _ => .returned e
  | .reset w => Reset w e
  | .move dst src => moveAssign dst src e
  | .construct w src => moveConstruct w src e
  | .destroy w => destructor w e

/-- Effect of a finite sequence of operations, performed left to right; it stops at the
first operation that does not return. -/
def run (NDEBUG : Bool) : List Op → ExtState → Outcome ExtState
  | [], e => .returned e
  | op :: ops, e => (step NDEBUG op e).andThen (run NDEBUG ops)

/-- Results of the `Get` operations of a sequence, in order. -/
def observe (NDEBUG : Bool) : List Op → ExtState → Outcome (List HandleType)
  | [], _ => .returned []
  | .get w :: ops, e => (observe NDEBUG ops e).andThen fun r => .returned (Get w e :: r)
  | op :: ops, e => (step NDEBUG op e).andThen (observe NDEBUG ops)

/-- The destroy functions passed to `Put` by a sequence of operations. -/
def destroyers : List Op → List PFN_DestroyFunction
  | [] => []
  | .acquire _ f _ :: ops => f :: destroyers ops
  | _ :: ops => destroyers ops

/-- The operation on `UniqueExtHandle` wrappers that corresponds to an operation on
`UniqueHandle` wrappers whose template parameter `DestroyFunction` is `F`: every `Put`
is passed `F`. -/
def ofStatic (F : PFN_DestroyFunction) : UniqueHandle.Op → Op
  | .acquire w v => .acquire w F v
  | .get w => .get w
  | .reset w => .reset w
  | .move dst src => .move dst src
  | .destroy w => .destroy w

/-- The wrapper at `w` can be reset: if it holds a value, its destroyer is not null. -/
def Sound (w : Addr) (e : ExtState) : Prop :=
  e.m_handle w ≠ XR_NULL_HANDLE → e.m_destroyer w ≠ nullptr

instance (w : Addr) (e : ExtState) : Decidable (Sound w e) := by
  unfold Sound; infer_instance

end UniqueExtHandle

/-- Correspondence between a state of `UniqueHandle` wrappers with destroy function `F`
and a state of `UniqueExtHandle` wrappers: corresponding wrappers hold the same value,
the same values were destroyed in the same order, always by `F`, and every
`UniqueExtHandle` wrapper that holds a value has the destroyer `F`. -/
structure Sim (F : PFN_DestroyFunction) (s : State) (e : ExtState) : Prop where
  handle : ∀ w, e.m_handle w = s.m_handle w
  calls : e.calls = s.calls.map (fun v => (F, v))
  destroyer : ∀ w, e.m_handle w ≠ XR_NULL_HANDLE → e.m_destroyer w = F

/-- A concrete state of `UniqueExtHandle` wrappers, for instantiating theorems: wrapper 0
holds the value 5 with destroyer 3, wrapper 1 holds 7 with destroyer 4, wrapper 2 is
empty with the pending destroyer 9, every other wrapper is empty; nothing destroyed yet. -/
def UniqueExtHandle.sample : ExtState :=
  { m_handle := fun w => if w = 0 then 5 else if w = 1 then 7 else XR_NULL_HANDLE,
    m_destroyer := fun w => if w = 0 then 3 else if w = 1 then 4 else if w = 2 then 9
      else nullptr,
    calls := [] }

/-! ## Theorems -/

theorem UniqueHandle.Reset_handle (this w : Addr) (s : State) :
    (UniqueHandle.Reset this s).m_handle w
      = if w = this then XR_NULL_HANDLE else s.m_handle w := by
  unfold UniqueHandle.Reset
  by_cases h : s.m_handle this = XR_NULL_HANDLE
  · by_cases hw : w = this
    · subst hw; simp [h]
    · simp [h, hw]
  · by_cases hw : w = this
    · subst hw; simp [h]
    · simp [h, hw, Function.update_noteq]

theorem UniqueHandle.Reset_calls (this : Addr) (s : State) :
    (UniqueHandle.Reset this s).calls = s.calls ++ released (s.m_handle this) := by
  unfold UniqueHandle.Reset released
  by_cases h : s.m_handle this = XR_NULL_HANDLE <;> simp [h]

theorem State.eq_iff (s t : State) :
    s = t ↔ (∀ w, s.m_handle w = t.m_handle w) ∧ s.calls = t.calls := by
  constructor
  · rintro rfl; exact ⟨fun _ => rfl, rfl⟩
  · rintro ⟨h₁, h₂⟩
    cases s; cases t
    simp only [State.mk.injEq]
    exact ⟨funext h₁, h₂⟩

theorem UniqueHandle.Reset_of_null (this : Addr) (s : State)
    (h : s.m_handle this = XR_NULL_HANDLE) : UniqueHandle.Reset this s = s := by
  unfold UniqueHandle.Reset; simp [h]

theorem UniqueHandle.moveAssign_handle (this other w : Addr) (s : State)
    (h : s.m_handle this ≠ s.m_handle other) :
    (UniqueHandle.moveAssign this other s).m_handle w
      = if w = other then XR_NULL_HANDLE
        else if w = this then s.m_handle other else s.m_handle w := by
  have hne : this ≠ other := fun e => h (by rw [e])
  unfold UniqueHandle.moveAssign
  simp only [h, ne_eq, not_false_eq_true, if_true]
  by_cases h₁ : w = other
  · subst h₁; simp
  · by_cases h₂ : w = this
    · subst h₂
      simp [h₁, UniqueHandle.Reset_handle, Function.update_noteq, Ne.symm hne]
    · simp [h₁, h₂, UniqueHandle.Reset_handle, Function.update_noteq]

theorem UniqueHandle.moveAssign_calls (this other : Addr) (s : State)
    (h : s.m_handle this ≠ s.m_handle other) :
    (UniqueHandle.moveAssign this other s).calls = s.calls ++ released (s.m_handle this) := by
  unfold UniqueHandle.moveAssign
  simp only [h, ne_eq, not_false_eq_true, if_true]
  exact UniqueHandle.Reset_calls this s

theorem UniqueHandle.moveAssign_of_eq (this other : Addr) (s : State)
    (h : s.m_handle this = s.m_handle other) : UniqueHandle.moveAssign this other s = s := by
  unfold UniqueHandle.moveAssign; simp [h]

/-- C3: for every wrapper state, after `Reset` the wrapper holds the null handle, and
the destroy function has been called exactly once with the former value `h` when `h` was
non-null and not at all when `h` was null; no other wrapper is touched. -/
theorem UniqueHandle.Reset_postcondition (this : Addr) (s : State) :
    UniqueHandle.Get this (UniqueHandle.Reset this s) = XR_NULL_HANDLE ∧
    (UniqueHandle.Reset this s).calls
      = s.calls ++ (if s.m_handle this ≠ XR_NULL_HANDLE then [s.m_handle this] else []) ∧
    ∀ w, w ≠ this → UniqueHandle.Get w (UniqueHandle.Reset this s) = UniqueHandle.Get w s := by
  refine ⟨?_, ?_, ?_⟩
  · simp [UniqueHandle.Get, UniqueHandle.Reset_handle]
  · exact UniqueHandle.Reset_calls this s
  · intro w hw
    simp [UniqueHandle.Get, UniqueHandle.Reset_handle, hw]

theorem UniqueExtHandle.Reset_returns (this : Addr) (e : ExtState)
    (h : e.m_handle this = XR_NULL_HANDLE ∨ e.m_destroyer this ≠ nullptr) :
    UniqueExtHandle.Reset this e = .returned
      { m_handle := Function.update e.m_handle this XR_NULL_HANDLE,
        m_destroyer := Function.update e.m_destroyer this nullptr,
        calls := e.calls ++ (released (e.m_handle this)).map (fun v => (e.m_destroyer this, v)) } := by
  unfold UniqueExtHandle.Reset released
  by_cases h₁ : e.m_handle this = XR_NULL_HANDLE
  · have : Function.update e.m_handle this XR_NULL_HANDLE = e.m_handle := by
      rw [← h₁]; exact Function.update_eq_self this e.m_handle
    simp [h₁, this]
  · have h₂ : e.m_destroyer this ≠ nullptr := h.resolve_left h₁
    simp [h₁, h₂]

theorem UniqueExtHandle.Reset_aborts (this : Addr) (e : ExtState)
    (h₁ : e.m_handle this ≠ XR_NULL_HANDLE) (h₂ : e.m_destroyer this = nullptr) :
    UniqueExtHandle.Reset this e = .aborted .nullCall e := by
  unfold UniqueExtHandle.Reset; simp [h₁, h₂]

/-- C4: `Reset` is idempotent in both variants.  For `UniqueHandle`, a second `Reset`
changes neither the wrappers nor the log of destroy calls, and `Reset` of an empty wrapper
changes nothing at all.  For `UniqueExtHandle`, running `Reset` twice has the same outcome
as running it once; `Reset` returns in every state in which the wrapper is empty or has a
non-null destroyer, and from the state it returns a second `Reset` returns that same
state. -/
theorem Reset_idempotent (this : Addr) (s : State) (e : ExtState) :
    UniqueHandle.Reset this (UniqueHandle.Reset this s) = UniqueHandle.Reset this s ∧
    (s.m_handle this = XR_NULL_HANDLE → UniqueHandle.Reset this s = s) ∧
    (UniqueExtHandle.Reset this e).andThen (UniqueExtHandle.Reset this)
      = UniqueExtHandle.Reset this e ∧
    (e.m_handle this = XR_NULL_HANDLE ∨ e.m_destroyer this ≠ nullptr →
      ∃ e₁, UniqueExtHandle.Reset this e = .returned e₁ ∧
        UniqueExtHandle.Reset this e₁ = .returned e₁) := by
  have key : ∀ e₀ : ExtState, e₀.m_handle this = XR_NULL_HANDLE ∨ e₀.m_destroyer this ≠ nullptr →
      ∃ e₁, UniqueExtHandle.Reset this e₀ = .returned e₁ ∧
        UniqueExtHandle.Reset this e₁ = .returned e₁ := by
    intro e₀ h
    refine ⟨_, UniqueExtHandle.Reset_returns this e₀ h, ?_⟩
    rw [UniqueExtHandle.Reset_returns this _ (Or.inl (by simp))]
    simp [released]
  refine ⟨?_, UniqueHandle.Reset_of_null this s, ?_, key e⟩
  · exact UniqueHandle.Reset_of_null this _ (by simp [UniqueHandle.Reset_handle])
  · by_cases h : e.m_handle this = XR_NULL_HANDLE ∨ e.m_destroyer this ≠ nullptr
    · obtain ⟨e₁, h₁, h₂⟩ := key e h
      rw [h₁]; exact h₂
    · push_neg at h
      rw [UniqueExtHandle.Reset_aborts this e h.1 h.2]
      rfl

/-- C5, as stated, fails: when destination and source hold the same non-null value the
move-assignment does nothing, so the source still reports that value and its destruction
calls the destroy function.  Shown for two distinct wrappers that were both filled with
the handle 7, and for the self-move of a wrapper that owns 7. -/
theorem UniqueHandle.moveAssign_source_keeps_equal_value :
    (UniqueHandle.Get 1 (UniqueHandle.moveAssign 0 1
        (UniqueHandle.run [.acquire 0 7, .acquire 1 7] UniqueHandle.init)) = 7 ∧
      (UniqueHandle.moveAssign 0 1
        (UniqueHandle.run [.acquire 0 7, .acquire 1 7] UniqueHandle.init)).calls = [] ∧
      (UniqueHandle.destructor 1 (UniqueHandle.moveAssign 0 1
        (UniqueHandle.run [.acquire 0 7, .acquire 1 7] UniqueHandle.init))).calls = [7]) ∧
    (UniqueHandle.Get 0 (UniqueHandle.moveAssign 0 0
        (UniqueHandle.run [.acquire 0 7] UniqueHandle.init)) = 7 ∧
      (UniqueHandle.moveAssign 0 0
        (UniqueHandle.run [.acquire 0 7] UniqueHandle.init)).calls = [] ∧
      (UniqueHandle.destructor 0 (UniqueHandle.moveAssign 0 0
        (UniqueHandle.run [.acquire 0 7] UniqueHandle.init))).calls = [7]) ∧
    (7 : HandleType) ≠ XR_NULL_HANDLE := by
  decide

/-- C5, amended: for every pair of wrappers whose values differ, or whose source is already
empty, after the move-assignment the source reports the null handle and its subsequent
destruction calls no destroy function. -/
theorem UniqueHandle.moveAssign_source_empty (this other : Addr) (s : State)
    (h : s.m_handle this ≠ s.m_handle other ∨ s.m_handle other = XR_NULL_HANDLE) :
    UniqueHandle.Get other (UniqueHandle.moveAssign this other s) = XR_NULL_HANDLE ∧
    (UniqueHandle.destructor other (UniqueHandle.moveAssign this other s)).calls
      = (UniqueHandle.moveAssign this other s).calls ∧
    UniqueHandle.Reset other (UniqueHandle.moveAssign this other s)
      = UniqueHandle.moveAssign this other s := by
  have hnull : (UniqueHandle.moveAssign this other s).m_handle other = XR_NULL_HANDLE := by
    by_cases hd : s.m_handle this = s.m_handle other
    · rw [UniqueHandle.moveAssign_of_eq this other s hd]
      exact h.resolve_left (fun hne => hne hd)
    · rw [UniqueHandle.moveAssign_handle this other other s hd]; simp
  refine ⟨hnull, ?_, UniqueHandle.Reset_of_null other _ hnull⟩
  unfold UniqueHandle.destructor
  rw [UniqueHandle.Reset_of_null other _ hnull]

/-- C5, amended, at a concrete input: wrapper 1 owns 7 and is moved into the empty
wrapper 0. -/
theorem UniqueHandle.moveAssign_source_empty_witness :
    ((UniqueHandle.run [.acquire 1 7] UniqueHandle.init).m_handle 0
        ≠ (UniqueHandle.run [.acquire 1 7] UniqueHandle.init).m_handle 1 ∨
      (UniqueHandle.run [.acquire 1 7] UniqueHandle.init).m_handle 1 = XR_NULL_HANDLE) ∧
    (UniqueHandle.Get 1 (UniqueHandle.moveAssign 0 1
        (UniqueHandle.run [.acquire 1 7] UniqueHandle.init)) = XR_NULL_HANDLE ∧
    (UniqueHandle.destructor 1 (UniqueHandle.moveAssign 0 1
        (UniqueHandle.run [.acquire 1 7] UniqueHandle.init))).calls
      = (UniqueHandle.moveAssign 0 1
        (UniqueHandle.run [.acquire 1 7] UniqueHandle.init)).calls ∧
    UniqueHandle.Reset 1 (UniqueHandle.moveAssign 0 1
        (UniqueHandle.run [.acquire 1 7] UniqueHandle.init))
      = UniqueHandle.moveAssign 0 1 (UniqueHandle.run [.acquire 1 7] UniqueHandle.init)) :=
  ⟨by decide,
   UniqueHandle.moveAssign_source_empty 0 1
    (UniqueHandle.run [.acquire 1 7] UniqueHandle.init) (by decide)⟩

/-- C6: for every pair of wrappers holding different values `d` (destination) and `s`
(source), after the move-assignment the destination reports `s`, the calls made to the
destroy function are exactly one call with `d` when `d` was non-null and none when `d`
was null, and none of them is a call with `s`. -/
theorem UniqueHandle.moveAssign_transfers (this other : Addr) (s : State)
    (h : s.m_handle this ≠ s.m_handle other) :
    UniqueHandle.Get this (UniqueHandle.moveAssign this other s) = s.m_handle other ∧
    (UniqueHandle.moveAssign this other s).calls
      = s.calls ++ (if s.m_handle this ≠ XR_NULL_HANDLE then [s.m_handle this] else []) ∧
    s.m_handle other ∉ (if s.m_handle this ≠ XR_NULL_HANDLE then [s.m_handle this] else []) := by
  have hne : this ≠ other := fun e => h (by rw [e])
  refine ⟨?_, UniqueHandle.moveAssign_calls this other s h, ?_⟩
  · simp [UniqueHandle.Get, UniqueHandle.moveAssign_handle this other this s h, hne]
  · by_cases hd : s.m_handle this = XR_NULL_HANDLE
    · simp [hd]
    · simp [hd, Ne.symm h]

/-- C6 at a concrete input: wrapper 0 owns 5, wrapper 1 owns 7, and 1 is moved into 0. -/
theorem UniqueHandle.moveAssign_transfers_witness :
    (UniqueHandle.run [.acquire 0 5, .acquire 1 7] UniqueHandle.init).m_handle 0
      ≠ (UniqueHandle.run [.acquire 0 5, .acquire 1 7] UniqueHandle.init).m_handle 1 ∧
    (UniqueHandle.Get 0 (UniqueHandle.moveAssign 0 1
      (UniqueHandle.run [.acquire 0 5, .acquire 1 7] UniqueHandle.init)) = 7 ∧
    (UniqueHandle.moveAssign 0 1
      (UniqueHandle.run [.acquire 0 5, .acquire 1 7] UniqueHandle.init)).calls = [] ++ [5] ∧
    7 ∉ [5]) :=
  ⟨by decide,
   UniqueHandle.moveAssign_transfers 0 1
      (UniqueHandle.run [.acquire 0 5, .acquire 1 7] UniqueHandle.init) (by decide)⟩

/-- C7: move-assigning a wrapper into itself calls no destroy function and leaves the
whole state unchanged, for `UniqueHandle` and for `UniqueExtHandle` (value and destroyer),
whether the wrapper is empty or owning; and move-assignment between two `UniqueHandle`
wrappers that hold the same value changes nothing either. -/
theorem self_moveAssign_noop (w : Addr) (s : State) (e : ExtState) :
    UniqueHandle.moveAssign w w s = s ∧
    UniqueExtHandle.moveAssign w w e = .returned e ∧
    ∀ this other, s.m_handle this = s.m_handle other →
      UniqueHandle.moveAssign this other s = s := by
  refine ⟨UniqueHandle.moveAssign_of_eq w w s rfl, ?_, ?_⟩
  · unfold UniqueExtHandle.moveAssign; simp
  · intro this other h
    exact UniqueHandle.moveAssign_of_eq this other s h

/-- C8: for every wrapper state with value `h`, `Put` returns the wrapper's own slot,
has by then called the destroy function exactly once with `h` when `h` is non-null and not
at all otherwise, leaves the slot holding the null handle (so `Get` returns null until the
native call fills it), and once the slot is filled with `v`, `Get` returns `v`; filling
the slot calls no destroy function. -/
theorem UniqueHandle.Put_postcondition (this : Addr) (s : State) (v : HandleType) :
    (UniqueHandle.Put this s).1 = this ∧
    (UniqueHandle.Put this s).2.calls
      = s.calls ++ (if s.m_handle this ≠ XR_NULL_HANDLE then [s.m_handle this] else []) ∧
    UniqueHandle.Get this (UniqueHandle.Put this s).2 = XR_NULL_HANDLE ∧
    UniqueHandle.Get this
      (UniqueHandle.fill (UniqueHandle.Put this s).1 v (UniqueHandle.Put this s).2) = v ∧
    (UniqueHandle.fill (UniqueHandle.Put this s).1 v (UniqueHandle.Put this s).2).calls
      = (UniqueHandle.Put this s).2.calls := by
  refine ⟨rfl, UniqueHandle.Reset_calls this s, ?_, ?_, rfl⟩
  · simp [UniqueHandle.Get, UniqueHandle.Put, UniqueHandle.Reset_handle]
  · simp [UniqueHandle.Get, UniqueHandle.Put, UniqueHandle.fill]

/-- C9: for non-null handles `H1` and `H2` and an empty wrapper `W`, the sequence
`Put`; fill with `H1`; `Get`; `Put`; fill with `H2`; `Get`; destroy `W` yields the `Get`
results `H1` and then `H2`, the destroy-call log `[H1]` right after the second `Put`, and
the final destroy-call log `[H1, H2]`. -/
theorem UniqueHandle.acquire_reacquire_destroy (W : Addr) (H1 H2 : HandleType)
    (h1 : H1 ≠ XR_NULL_HANDLE) (h2 : H2 ≠ XR_NULL_HANDLE) :
    let p₁ := UniqueHandle.Put W UniqueHandle.init
    let s₁ := UniqueHandle.fill p₁.1 H1 p₁.2
    let p₂ := UniqueHandle.Put W s₁
    let s₂ := UniqueHandle.fill p₂.1 H2 p₂.2
    let s₃ := UniqueHandle.destructor W s₂
    UniqueHandle.Get W s₁ = H1 ∧
    p₂.2.calls = [H1] ∧
    UniqueHandle.Get W s₂ = H2 ∧
    s₃.calls = [H1, H2] := by
  intro p₁ s₁ p₂ s₂ s₃
  have e₁ : s₁.m_handle W = H1 := by
    simp [s₁, p₁, UniqueHandle.fill, UniqueHandle.Put]
  have c₁ : s₁.calls = [] := by
    simp [s₁, p₁, UniqueHandle.fill, UniqueHandle.Put, UniqueHandle.Reset_calls,
      UniqueHandle.init, released]
  have c₂ : p₂.2.calls = [H1] := by
    simp [p₂, UniqueHandle.Put, UniqueHandle.Reset_calls, e₁, c₁, released, h1]
  have e₂ : s₂.m_handle W = H2 := by
    simp [s₂, p₂, UniqueHandle.fill, UniqueHandle.Put]
  have c₃ : s₂.calls = [H1] := c₂
  refine ⟨e₁, c₂, e₂, ?_⟩
  simp [s₃, UniqueHandle.destructor, UniqueHandle.Reset_calls, e₂, c₃, released, h2]

/-- C9 at a concrete input: wrapper 0 acquires 5 and then 7. -/
theorem UniqueHandle.acquire_reacquire_destroy_witness :
    ((5 : HandleType) ≠ XR_NULL_HANDLE ∧ (7 : HandleType) ≠ XR_NULL_HANDLE) ∧
    (UniqueHandle.Get 0 (UniqueHandle.run [.acquire 0 5] UniqueHandle.init) = 5 ∧
     (UniqueHandle.Put 0 (UniqueHandle.run [.acquire 0 5] UniqueHandle.init)).2.calls = [5] ∧
     UniqueHandle.Get 0 (UniqueHandle.run [.acquire 0 5, .acquire 0 7] UniqueHandle.init) = 7 ∧
     (UniqueHandle.run [.acquire 0 5, .acquire 0 7, .destroy 0] UniqueHandle.init).calls
       = [5, 7]) :=
  ⟨by decide, UniqueHandle.acquire_reacquire_destroy 0 5 7 (by decide) (by decide)⟩

theorem UniqueExtHandle.Put_of_ne_nullptr (NDEBUG : Bool) (this : Addr)
    (f : PFN_DestroyFunction) (e : ExtState) (hf : f ≠ nullptr) :
    UniqueExtHandle.Put NDEBUG this f e = (UniqueExtHandle.Reset this e).andThen fun s₁ =>
      .returned (this, { s₁ with m_destroyer := Function.update s₁.m_destroyer this f }) := by
  unfold UniqueExtHandle.Put
  rw [if_neg (fun h => hf h.2)]

/-- C10, as stated, fails: in a build with `NDEBUG` defined the `assert` is compiled out,
so `Put(nullptr)` reports no violation.  On a wrapper that owns 5 with destroyer 3 it
returns the slot after `Reset` has called the destroyer with 5 and cleared the value, the
destroyer now being null; on an empty wrapper it returns the slot as well. -/
theorem UniqueExtHandle.Put_nullptr_with_NDEBUG_returns :
    (∃ e₁, UniqueExtHandle.Put true 0 nullptr UniqueExtHandle.sample = .returned (0, e₁) ∧
      e₁.calls = [(3, 5)] ∧ e₁.m_handle 0 = XR_NULL_HANDLE ∧ e₁.m_destroyer 0 = nullptr) ∧
    UniqueExtHandle.sample.calls = [] ∧
    UniqueExtHandle.sample.m_handle 0 = 5 ∧
    UniqueExtHandle.sample.m_destroyer 0 = 3 ∧
    (∃ e₁, UniqueExtHandle.Put true 0 nullptr UniqueExtHandle.init = .returned (0, e₁)) :=
  ⟨⟨_, rfl, by decide, by decide, by decide⟩, by decide, by decide, by decide, ⟨_, rfl⟩⟩

/-- C10, amended: in a build with assertions enabled (`NDEBUG` not defined), in every
state `Put(nullptr)` stops on its assertion, and the state at that point is the state
before the call: the value and the destroyer of every wrapper are unchanged and no
destroy function has been called.  In every build, for a non-null `f`, `Put(f)` never
stops on the assertion, and it returns the wrapper's own slot whenever the wrapper is
empty or has a non-null destroyer. -/
theorem UniqueExtHandle.Put_null_destroyFunction (this : Addr) (e : ExtState) :
    UniqueExtHandle.Put false this nullptr e = .aborted .assertion e ∧
    ∀ (NDEBUG : Bool) (f : PFN_DestroyFunction), f ≠ nullptr →
      (∀ e₁, UniqueExtHandle.Put NDEBUG this f e ≠ .aborted .assertion e₁) ∧
      (e.m_handle this = XR_NULL_HANDLE ∨ e.m_destroyer this ≠ nullptr →
        ∃ e₁, UniqueExtHandle.Put NDEBUG this f e = .returned (this, e₁)) := by
  refine ⟨by simp [UniqueExtHandle.Put], ?_⟩
  intro NDEBUG f hf
  rw [UniqueExtHandle.Put_of_ne_nullptr NDEBUG this f e hf]
  refine ⟨?_, ?_⟩
  · intro e₁
    by_cases h : e.m_handle this = XR_NULL_HANDLE ∨ e.m_destroyer this ≠ nullptr
    · simp [UniqueExtHandle.Reset_returns this e h, Outcome.andThen]
    · push_neg at h
      simp [UniqueExtHandle.Reset_aborts this e h.1 h.2, Outcome.andThen]
  · intro h
    rw [UniqueExtHandle.Reset_returns this e h]
    exact ⟨_, rfl⟩

/-! ### The ownership invariant along sequences of operations -/

theorem Owned.init : Owned [] UniqueHandle.init := by
  refine ⟨by simp, ?_, ?_, ?_, ?_, ?_, ?_⟩ <;> simp [UniqueHandle.init]

theorem Owned.Reset {A : List HandleType} {s : State} (hs : Owned A s) (this : Addr) :
    Owned A (UniqueHandle.Reset this s) := by
  by_cases h : s.m_handle this = XR_NULL_HANDLE
  · rw [UniqueHandle.Reset_of_null this s h]; exact hs
  have hm := UniqueHandle.Reset_handle this
  have hc : (UniqueHandle.Reset this s).calls = s.calls ++ [s.m_handle this] := by
    rw [UniqueHandle.Reset_calls]; simp [released, h]
  refine ⟨hs.null_not_acquired, ?_, ?_, ?_, ?_, ?_, ?_⟩
  · intro w hw
    rw [hm] at hw ⊢
    by_cases e : w = this
    · simp [e] at hw
    · simp only [e, if_false] at hw ⊢; exact hs.held_acquired w hw
  · intro v hv
    rw [hc, List.mem_append, List.mem_singleton] at hv
    rcases hv with hv | hv
    · exact hs.calls_acquired v hv
    · rw [hv]; exact hs.held_acquired this h
  · intro w w' hw hww
    rw [hm] at hw
    rw [hm, hm] at hww
    by_cases e : w = this
    · simp [e] at hw
    · simp only [e, if_false] at hw hww
      by_cases e' : w' = this
      · simp only [e', if_true] at hww; exact absurd hww hw
      · simp only [e', if_false] at hww; exact hs.exclusive w w' hw hww
  · intro w hw
    rw [hm] at hw ⊢
    by_cases e : w = this
    · simp [e] at hw
    · simp only [e, if_false] at hw ⊢
      rw [hc, List.mem_append, List.mem_singleton]
      rintro (hmem | heq)
      · exact hs.held_not_destroyed w hw hmem
      · exact e (hs.exclusive w this hw heq)
  · rw [hc]
    refine List.Nodup.append hs.calls_nodup (List.nodup_singleton _) ?_
    intro v hv hv'
    rw [List.mem_singleton] at hv'
    exact hs.held_not_destroyed this h (hv' ▸ hv)
  · intro v hv
    rcases hs.accounted v hv with ⟨w, hw⟩ | hmem
    · by_cases e : w = this
      · right; rw [hc, ← hw, e]; simp
      · left; exact ⟨w, by rw [hm]; simp [e, hw]⟩
    · right; rw [hc]; exact List.mem_append_left _ hmem

theorem Owned.comp_perm {A : List HandleType} {s : State} (hs : Owned A s)
    (σ : Equiv.Perm Addr) : Owned A { m_handle := fun w => s.m_handle (σ w), calls := s.calls } := by
  refine ⟨hs.null_not_acquired, ?_, hs.calls_acquired, ?_, ?_, hs.calls_nodup, ?_⟩
  · intro w hw; exact hs.held_acquired (σ w) hw
  · intro w w' hw hww; exact σ.injective (hs.exclusive (σ w) (σ w') hw hww)
  · intro w hw; exact hs.held_not_destroyed (σ w) hw
  · intro v hv
    rcases hs.accounted v hv with ⟨w, hw⟩ | hmem
    · left; exact ⟨σ.symm w, by simp [hw]⟩
    · right; exact hmem

theorem UniqueHandle.moveAssign_eq_swap (this other : Addr) (s : State)
    (h : s.m_handle this ≠ s.m_handle other) :
    UniqueHandle.moveAssign this other s =
      { m_handle := fun w => (UniqueHandle.Reset this s).m_handle (Equiv.swap this other w),
        calls := (UniqueHandle.Reset this s).calls } := by
  have hne : this ≠ other := fun e => h (by rw [e])
  rw [State.eq_iff]
  refine ⟨?_, ?_⟩
  · intro w
    rw [UniqueHandle.moveAssign_handle this other w s h]
    simp only [UniqueHandle.Reset_handle]
    by_cases h₁ : w = other
    · subst h₁; simp
    · by_cases h₂ : w = this
      · subst h₂; simp [h₁, Ne.symm h₁]
      · simp [h₁, h₂, Equiv.swap_apply_of_ne_of_ne h₂ h₁]
  · rw [UniqueHandle.moveAssign_calls this other s h, UniqueHandle.Reset_calls]

theorem Owned.moveAssign {A : List HandleType} {s : State} (hs : Owned A s)
    (this other : Addr) : Owned A (UniqueHandle.moveAssign this other s) := by
  by_cases h : s.m_handle this = s.m_handle other
  · rw [UniqueHandle.moveAssign_of_eq this other s h]; exact hs
  · rw [UniqueHandle.moveAssign_eq_swap this other s h]
    exact (hs.Reset this).comp_perm (Equiv.swap this other)

theorem Owned.fill {A : List HandleType} {s : State} (hs : Owned A s) (slot : Addr)
    (v : HandleType) (hslot : s.m_handle slot = XR_NULL_HANDLE) (hv : v ≠ XR_NULL_HANDLE)
    (hfresh : v ∉ A) : Owned (A ++ [v]) (UniqueHandle.fill slot v s) := by
  have hm : ∀ w, (UniqueHandle.fill slot v s).m_handle w
      = if w = slot then v else s.m_handle w := by
    intro w
    by_cases e : w = slot
    · subst e; simp [UniqueHandle.fill]
    · simp [UniqueHandle.fill, e, Function.update_noteq]
  have hc : (UniqueHandle.fill slot v s).calls = s.calls := rfl
  refine ⟨?_, ?_, ?_, ?_, ?_, ?_, ?_⟩
  · rw [List.mem_append, List.mem_singleton]
    rintro (h | h)
    · exact hs.null_not_acquired h
    · exact hv h.symm
  · intro w hw
    rw [hm] at hw ⊢
    by_cases e : w = slot
    · simp [e]
    · simp only [e, if_false] at hw ⊢
      exact List.mem_append_left _ (hs.held_acquired w hw)
  · intro u hu
    exact List.mem_append_left _ (hs.calls_acquired u hu)
  · intro w w' hw hww
    rw [hm] at hw
    rw [hm, hm] at hww
    by_cases e : w = slot
    · by_cases e' : w' = slot
      · rw [e, e']
      · simp only [e, e', if_true, if_false] at hww
        have hne : s.m_handle w' ≠ XR_NULL_HANDLE := by rw [← hww]; exact hv
        exact absurd (hww ▸ hs.held_acquired w' hne) hfresh
    · simp only [e, if_false] at hw hww
      by_cases e' : w' = slot
      · simp only [e', if_true] at hww
        exact absurd (hww ▸ hs.held_acquired w hw) hfresh
      · simp only [e', if_false] at hww
        exact hs.exclusive w w' hw hww
  · intro w hw
    rw [hm] at hw ⊢
    rw [hc]
    by_cases e : w = slot
    · simp only [e, if_true]
      exact fun hmem => hfresh (hs.calls_acquired v hmem)
    · simp only [e, if_false] at hw ⊢
      exact hs.held_not_destroyed w hw
  · exact hs.calls_nodup
  · intro u hu
    rw [List.mem_append, List.mem_singleton] at hu
    rcases hu with hu | hu
    · rcases hs.accounted u hu with ⟨w, hw⟩ | hmem
      · left
        refine ⟨w, ?_⟩
        rw [hm]
        by_cases e : w = slot
        · exfalso
          rw [e, hslot] at hw
          exact hs.null_not_acquired (hw ▸ hu)
        · simp [e, hw]
      · right; exact hmem
    · left; exact ⟨slot, by rw [hm, hu]; simp⟩

theorem Owned.run {ops : List UniqueHandle.Op} :
    ∀ {A : List HandleType} {s : State}, Owned A s →
      XR_NULL_HANDLE ∉ UniqueHandle.acquired ops → (A ++ UniqueHandle.acquired ops).Nodup →
      Owned (A ++ UniqueHandle.acquired ops) (UniqueHandle.run ops s) := by
  induction ops with
  | nil =>
    intro A s hs _ _
    simpa [UniqueHandle.acquired, UniqueHandle.run] using hs
  | cons op ops ih =>
    intro A s hs hnull hnd
    have hrun : UniqueHandle.run (op :: ops) s
        = UniqueHandle.run ops (UniqueHandle.step op s) := rfl
    rw [hrun]
    cases op with
    | acquire w v =>
      simp only [UniqueHandle.acquired, List.mem_cons, not_or] at hnull hnd ⊢
      have hv : v ≠ XR_NULL_HANDLE := fun e => hnull.1 e.symm
      have hfresh : v ∉ A := by
        intro hmem
        have := (List.nodup_append.1 hnd).2.2 hmem
        exact this (List.mem_cons_self v _)
      have hstep : Owned (A ++ [v]) (UniqueHandle.step (.acquire w v) s) := by
        refine Owned.fill (hs.Reset w) w v ?_ hv hfresh
        simp [UniqueHandle.Reset_handle]
      have := ih hstep hnull.2 (by simpa using hnd)
      simpa using this
    | get w => exact ih hs hnull hnd
    | reset w => exact ih (hs.Reset w) hnull hnd
    | move dst src => exact ih (hs.moveAssign dst src) hnull hnd
    | destroy w => exact ih (hs.Reset w) hnull hnd

theorem Owned.of_fresh {ops : List UniqueHandle.Op} (h : UniqueHandle.Fresh ops) :
    Owned (UniqueHandle.acquired ops) (UniqueHandle.run ops UniqueHandle.init) := by
  have := @Owned.run ops [] UniqueHandle.init Owned.init h.1 (by simpa using h.2)
  simpa using this

theorem UniqueHandle.step_handle_ne_null (op : UniqueHandle.Op) (s : State) (w : Addr)
    (h : (UniqueHandle.step op s).m_handle w ≠ XR_NULL_HANDLE) :
    s.m_handle w ≠ XR_NULL_HANDLE ∨ w ∈ UniqueHandle.wrappers [op] := by
  by_cases hw : w ∈ UniqueHandle.wrappers [op]
  · exact Or.inr hw
  left
  cases op with
  | acquire u v =>
    simp only [UniqueHandle.wrappers, List.mem_singleton] at hw
    simpa [UniqueHandle.step, UniqueHandle.fill, UniqueHandle.Put, Function.update_noteq hw,
      UniqueHandle.Reset_handle, hw] using h
  | get u => exact h
  | reset u =>
    simp only [UniqueHandle.wrappers, List.mem_singleton] at hw
    simpa [UniqueHandle.step, UniqueHandle.Reset_handle, hw] using h
  | move dst src =>
    simp only [UniqueHandle.wrappers, List.mem_cons, List.mem_singleton, List.not_mem_nil,
      or_false, not_or] at hw
    by_cases e : s.m_handle dst = s.m_handle src
    · simpa [UniqueHandle.step, UniqueHandle.moveAssign_of_eq dst src s e] using h
    · simpa [UniqueHandle.step, UniqueHandle.moveAssign_handle dst src w s e, hw.1, hw.2]
        using h
  | destroy u =>
    simp only [UniqueHandle.wrappers, List.mem_singleton] at hw
    simpa [UniqueHandle.step, UniqueHandle.destructor, UniqueHandle.Reset_handle, hw] using h

theorem UniqueHandle.wrappers_cons (op : UniqueHandle.Op) (ops : List UniqueHandle.Op) :
    UniqueHandle.wrappers (op :: ops)
      = UniqueHandle.wrappers [op] ++ UniqueHandle.wrappers ops := by
  cases op <;> simp [UniqueHandle.wrappers]

theorem UniqueHandle.run_handle_ne_null (ops : List UniqueHandle.Op) :
    ∀ (s : State) (w : Addr), (UniqueHandle.run ops s).m_handle w ≠ XR_NULL_HANDLE →
      s.m_handle w ≠ XR_NULL_HANDLE ∨ w ∈ UniqueHandle.wrappers ops := by
  induction ops with
  | nil => intro s w h; exact Or.inl h
  | cons op ops ih =>
    intro s w h
    have hrun : UniqueHandle.run (op :: ops) s
        = UniqueHandle.run ops (UniqueHandle.step op s) := rfl
    rw [hrun] at h
    rw [UniqueHandle.wrappers_cons, List.mem_append]
    rcases ih _ w h with h₁ | h₁
    · rcases UniqueHandle.step_handle_ne_null op s w h₁ with h₂ | h₂
      · exact Or.inl h₂
      · exact Or.inr (Or.inl h₂)
    · exact Or.inr (Or.inr h₁)

theorem UniqueHandle.destroyAll_handle (ws : List Addr) :
    ∀ (s : State) (w : Addr), (UniqueHandle.destroyAll ws s).m_handle w
      = if w ∈ ws then XR_NULL_HANDLE else s.m_handle w := by
  induction ws with
  | nil => intro s w; simp [UniqueHandle.destroyAll]
  | cons u ws ih =>
    intro s w
    have hrun : UniqueHandle.destroyAll (u :: ws) s
        = UniqueHandle.destroyAll ws (UniqueHandle.destructor u s) := rfl
    rw [hrun, ih, UniqueHandle.destructor, UniqueHandle.Reset_handle]
    by_cases h₁ : w ∈ ws
    · simp [h₁]
    · by_cases h₂ : w = u
      · simp [h₂]
      · simp [h₁, h₂]

theorem Owned.destroyAll {A : List HandleType} (ws : List Addr) :
    ∀ {s : State}, Owned A s → Owned A (UniqueHandle.destroyAll ws s) := by
  induction ws with
  | nil => intro s hs; exact hs
  | cons u ws ih => intro s hs; exact ih (hs.Reset u)

/-- C1: for every finite sequence of operations (acquire, `Get`, `Reset`, move-assignment,
destruction) on initially empty wrappers in which every acquire writes a non-null value
not acquired before, each acquired value occurs at most once in the log of destroy-function
calls. -/
theorem UniqueHandle.no_double_free (ops : List UniqueHandle.Op)
    (hfresh : UniqueHandle.Fresh ops) (v : HandleType)
    (_hv : v ∈ UniqueHandle.acquired ops) :
    List.count v (UniqueHandle.run ops UniqueHandle.init).calls ≤ 1 :=
  List.nodup_iff_count_le_one.1 (Owned.of_fresh hfresh).calls_nodup v

/-- C1 at a concrete input: 5 and 7 are acquired by wrappers 0 and 1, wrapper 1 is moved
into wrapper 0 (which destroys 5), wrapper 0 is reset (which destroys 7) and wrapper 1 is
destroyed. -/
theorem UniqueHandle.no_double_free_witness :
    UniqueHandle.Fresh [.acquire 0 5, .acquire 1 7, .move 0 1, .reset 0, .destroy 1] ∧
    7 ∈ UniqueHandle.acquired [.acquire 0 5, .acquire 1 7, .move 0 1, .reset 0, .destroy 1] ∧
    List.count 7 (UniqueHandle.run
      [.acquire 0 5, .acquire 1 7, .move 0 1, .reset 0, .destroy 1] UniqueHandle.init).calls ≤ 1 ∧
    (UniqueHandle.run
      [.acquire 0 5, .acquire 1 7, .move 0 1, .reset 0, .destroy 1] UniqueHandle.init).calls
      = [5, 7] :=
  ⟨by decide, by decide,
   UniqueHandle.no_double_free
     [.acquire 0 5, .acquire 1 7, .move 0 1, .reset 0, .destroy 1] (by decide) 7 (by decide),
   by decide⟩

/-- C2: in every state reached from initially empty wrappers by a sequence of operations
in which every acquire writes a fresh non-null value, each acquired value is either held
by exactly one wrapper and absent from the log of destroy calls, or held by no wrapper and
in that log exactly once; and after the destruction of all wrappers of any list that
contains every wrapper the sequence mentions, every wrapper is empty and each acquired
value is in the log exactly once. -/
theorem UniqueHandle.exclusive_ownership (ops : List UniqueHandle.Op)
    (hfresh : UniqueHandle.Fresh ops) (v : HandleType)
    (hv : v ∈ UniqueHandle.acquired ops) :
    (((∃! w, UniqueHandle.Get w (UniqueHandle.run ops UniqueHandle.init) = v) ∧
        List.count v (UniqueHandle.run ops UniqueHandle.init).calls = 0) ∨
      ((∀ w, UniqueHandle.Get w (UniqueHandle.run ops UniqueHandle.init) ≠ v) ∧
        List.count v (UniqueHandle.run ops UniqueHandle.init).calls = 1)) ∧
    ∀ ws : List Addr, (∀ w, w ∈ UniqueHandle.wrappers ops → w ∈ ws) →
      (∀ w, UniqueHandle.Get w
        (UniqueHandle.destroyAll ws (UniqueHandle.run ops UniqueHandle.init)) = XR_NULL_HANDLE) ∧
      List.count v
        (UniqueHandle.destroyAll ws (UniqueHandle.run ops UniqueHandle.init)).calls = 1 := by
  have hs := Owned.of_fresh hfresh
  have hvne : v ≠ XR_NULL_HANDLE := fun e => hs.null_not_acquired (e ▸ hv)
  refine ⟨?_, ?_⟩
  · rcases hs.accounted v hv with ⟨w, hw⟩ | hmem
    · left
      have hwne : (UniqueHandle.run ops UniqueHandle.init).m_handle w ≠ XR_NULL_HANDLE := by
        rw [hw]; exact hvne
      refine ⟨⟨w, hw, ?_⟩, ?_⟩
      · intro w' hw'
        exact (hs.exclusive w w' hwne (hw.trans hw'.symm)).symm
      · exact List.count_eq_zero_of_not_mem (hw ▸ hs.held_not_destroyed w hwne)
    · right
      refine ⟨?_, List.count_eq_one_of_mem hs.calls_nodup hmem⟩
      intro w hw
      have hwne : (UniqueHandle.run ops UniqueHandle.init).m_handle w ≠ XR_NULL_HANDLE := by
        rw [show (UniqueHandle.run ops UniqueHandle.init).m_handle w = v from hw]; exact hvne
      exact hs.held_not_destroyed w hwne
        (by rw [show (UniqueHandle.run ops UniqueHandle.init).m_handle w = v from hw]; exact hmem)
  · intro ws hws
    have hd := @Owned.destroyAll (UniqueHandle.acquired ops) ws _ hs
    have hnull : ∀ w, (UniqueHandle.destroyAll ws
        (UniqueHandle.run ops UniqueHandle.init)).m_handle w = XR_NULL_HANDLE := by
      intro w
      rw [UniqueHandle.destroyAll_handle]
      by_cases hmem : w ∈ ws
      · simp [hmem]
      · simp only [hmem, if_false]
        by_contra hne
        rcases UniqueHandle.run_handle_ne_null ops UniqueHandle.init w hne with h₁ | h₁
        · exact h₁ rfl
        · exact hmem (hws w h₁)
    refine ⟨hnull, ?_⟩
    rcases hd.accounted v hv with ⟨w, hw⟩ | hmem
    · exact absurd ((hnull w).symm.trans hw).symm hvne
    · exact List.count_eq_one_of_mem hd.calls_nodup hmem

/-- C2 at a concrete input: 5 and 7 are acquired by wrappers 0 and 1 and wrapper 1 is
moved into wrapper 0; the value 7 is then held by wrapper 0 alone. -/
theorem UniqueHandle.exclusive_ownership_witness :
    UniqueHandle.Fresh [.acquire 0 5, .acquire 1 7, .move 0 1] ∧
    7 ∈ UniqueHandle.acquired [.acquire 0 5, .acquire 1 7, .move 0 1] ∧
    UniqueHandle.Get 0
      (UniqueHandle.run [.acquire 0 5, .acquire 1 7, .move 0 1] UniqueHandle.init) = 7 ∧
    (UniqueHandle.run [.acquire 0 5, .acquire 1 7, .move 0 1] UniqueHandle.init).calls = [5] ∧
    ((((∃! w, UniqueHandle.Get w
          (UniqueHandle.run [.acquire 0 5, .acquire 1 7, .move 0 1] UniqueHandle.init) = 7) ∧
        List.count 7
          (UniqueHandle.run [.acquire 0 5, .acquire 1 7, .move 0 1] UniqueHandle.init).calls
          = 0) ∨
      ((∀ w, UniqueHandle.Get w
          (UniqueHandle.run [.acquire 0 5, .acquire 1 7, .move 0 1] UniqueHandle.init) ≠ 7) ∧
        List.count 7
          (UniqueHandle.run [.acquire 0 5, .acquire 1 7, .move 0 1] UniqueHandle.init).calls
          = 1)) ∧
    ∀ ws : List Addr,
      (∀ w, w ∈ UniqueHandle.wrappers [.acquire 0 5, .acquire 1 7, .move 0 1] → w ∈ ws) →
      (∀ w, UniqueHandle.Get w (UniqueHandle.destroyAll ws
        (UniqueHandle.run [.acquire 0 5, .acquire 1 7, .move 0 1] UniqueHandle.init))
          = XR_NULL_HANDLE) ∧
      List.count 7 (UniqueHandle.destroyAll ws
        (UniqueHandle.run [.acquire 0 5, .acquire 1 7, .move 0 1] UniqueHandle.init)).calls
          = 1) :=
  ⟨by decide, by decide, by decide, by decide,
   UniqueHandle.exclusive_ownership
     [.acquire 0 5, .acquire 1 7, .move 0 1] (by decide) 7 (by decide)⟩

/-! ### `UniqueExtHandle`: move-assignment, `Reset`, simulation, null destroyers -/

theorem UniqueExtHandle.ext_moveAssign_of_eq (this other : Addr) (e : ExtState)
    (h : e.m_handle this = e.m_handle other ∧ e.m_destroyer this = e.m_destroyer other) :
    UniqueExtHandle.moveAssign this other e = .returned e := by
  unfold UniqueExtHandle.moveAssign; simp [h.1, h.2]

theorem UniqueExtHandle.moveAssign_aborts (this other : Addr) (e : ExtState)
    (hg : ¬ (e.m_handle this = e.m_handle other ∧ e.m_destroyer this = e.m_destroyer other))
    (h₁ : e.m_handle this ≠ XR_NULL_HANDLE) (h₂ : e.m_destroyer this = nullptr) :
    UniqueExtHandle.moveAssign this other e = .aborted .nullCall e := by
  have hg' : e.m_handle this ≠ e.m_handle other ∨ e.m_destroyer this ≠ e.m_destroyer other := by
    by_contra hc; push_neg at hc; exact hg hc
  unfold UniqueExtHandle.moveAssign
  rw [if_pos hg', UniqueExtHandle.Reset_aborts this e h₁ h₂]
  rfl

theorem UniqueExtHandle.moveAssign_returns (this other : Addr) (e : ExtState)
    (hg : ¬ (e.m_handle this = e.m_handle other ∧ e.m_destroyer this = e.m_destroyer other))
    (h : e.m_handle this = XR_NULL_HANDLE ∨ e.m_destroyer this ≠ nullptr) :
    ∃ e₁, UniqueExtHandle.moveAssign this other e = .returned e₁ ∧
      (∀ w, e₁.m_handle w = if w = other then XR_NULL_HANDLE
        else if w = this then e.m_handle other else e.m_handle w) ∧
      (∀ w, e₁.m_destroyer w = if w = other then nullptr
        else if w = this then e.m_destroyer other else e.m_destroyer w) ∧
      e₁.calls = e.calls
        ++ (released (e.m_handle this)).map (fun v => (e.m_destroyer this, v)) := by
  have hg' : e.m_handle this ≠ e.m_handle other ∨ e.m_destroyer this ≠ e.m_destroyer other := by
    by_contra hc; push_neg at hc; exact hg hc
  have hne : this ≠ other := by
    rintro rfl; exact hg ⟨rfl, rfl⟩
  unfold UniqueExtHandle.moveAssign
  rw [if_pos hg', UniqueExtHandle.Reset_returns this e h]
  refine ⟨_, rfl, ?_, ?_, rfl⟩
  · intro w
    by_cases h₁ : w = other
    · subst h₁; simp
    · by_cases h₂ : w = this
      · subst h₂; simp [h₁, Function.update_noteq, Ne.symm h₁]
      · simp [h₁, h₂, Function.update_noteq]
  · intro w
    by_cases h₁ : w = other
    · subst h₁; simp
    · by_cases h₂ : w = this
      · subst h₂; simp [h₁, Function.update_noteq, Ne.symm h₁]
      · simp [h₁, h₂, Function.update_noteq]

/-- C11, as stated, fails: for a destination that holds the value 5 with a null
destroyer and an empty source, the move-assignment is not a no-op case, yet the
destination does not become the source's pair and nothing is logged: `Reset` stops at the
call through the null destroyer, with the state unchanged. -/
theorem UniqueExtHandle.moveAssign_null_destroyer_stops :
    UniqueExtHandle.moveAssign 0 1 (UniqueExtHandle.fill 0 5 UniqueExtHandle.init)
      = .aborted .nullCall (UniqueExtHandle.fill 0 5 UniqueExtHandle.init) ∧
    (UniqueExtHandle.fill 0 5 UniqueExtHandle.init).m_handle 0 = 5 ∧
    (UniqueExtHandle.fill 0 5 UniqueExtHandle.init).m_destroyer 0 = nullptr ∧
    (UniqueExtHandle.fill 0 5 UniqueExtHandle.init).m_handle 1 = XR_NULL_HANDLE ∧
    (UniqueExtHandle.fill 0 5 UniqueExtHandle.init).calls = [] ∧
    (5 : HandleType) ≠ XR_NULL_HANDLE :=
  ⟨rfl, by decide, by decide, by decide, by decide, by decide⟩

/-- C11, amended: for every pair of wrappers `D = (d, fd)` and `S = (s, fs)` in which
`d` is null or `fd` is non-null, `D = move(S)` is a no-op (the state is returned
unchanged) if and only if `d = s` and `fd = fs`; otherwise it returns with `D = (s, fs)`
and `S = (null handle, null destroyer)`, all other wrappers unchanged, and `fd` has been
called exactly once with `d` if `d` was non-null and not at all if `d` was null. -/
theorem UniqueExtHandle.moveAssign_postcondition (this other : Addr) (e : ExtState)
    (h : e.m_handle this = XR_NULL_HANDLE ∨ e.m_destroyer this ≠ nullptr) :
    (UniqueExtHandle.moveAssign this other e = .returned e ↔
      (e.m_handle this = e.m_handle other ∧ e.m_destroyer this = e.m_destroyer other)) ∧
    (¬ (e.m_handle this = e.m_handle other ∧ e.m_destroyer this = e.m_destroyer other) →
      ∃ e₁, UniqueExtHandle.moveAssign this other e = .returned e₁ ∧
        (e₁.m_handle this = e.m_handle other ∧ e₁.m_destroyer this = e.m_destroyer other) ∧
        (e₁.m_handle other = XR_NULL_HANDLE ∧ e₁.m_destroyer other = nullptr) ∧
        (∀ w, w ≠ this → w ≠ other →
          e₁.m_handle w = e.m_handle w ∧ e₁.m_destroyer w = e.m_destroyer w) ∧
        e₁.calls = e.calls ++
          (if e.m_handle this ≠ XR_NULL_HANDLE then [(e.m_destroyer this, e.m_handle this)]
           else [])) := by
  have key : ¬ (e.m_handle this = e.m_handle other ∧ e.m_destroyer this = e.m_destroyer other) →
      ∃ e₁, UniqueExtHandle.moveAssign this other e = .returned e₁ ∧
        (e₁.m_handle this = e.m_handle other ∧ e₁.m_destroyer this = e.m_destroyer other) ∧
        (e₁.m_handle other = XR_NULL_HANDLE ∧ e₁.m_destroyer other = nullptr) ∧
        (∀ w, w ≠ this → w ≠ other →
          e₁.m_handle w = e.m_handle w ∧ e₁.m_destroyer w = e.m_destroyer w) ∧
        e₁.calls = e.calls ++
          (if e.m_handle this ≠ XR_NULL_HANDLE then [(e.m_destroyer this, e.m_handle this)]
           else []) := by
    intro hg
    have hne : this ≠ other := by
      rintro rfl; exact hg ⟨rfl, rfl⟩
    obtain ⟨e₁, hret, hm, hd, hc⟩ := UniqueExtHandle.moveAssign_returns this other e hg h
    refine ⟨e₁, hret, ⟨?_, ?_⟩, ⟨?_, ?_⟩, ?_, ?_⟩
    · rw [hm]; simp [hne]
    · rw [hd]; simp [hne]
    · rw [hm]; simp
    · rw [hd]; simp
    · intro w h₁ h₂
      rw [hm, hd]; simp [h₁, h₂]
    · rw [hc]; unfold released
      by_cases hn : e.m_handle this = XR_NULL_HANDLE <;> simp [hn]
  refine ⟨⟨?_, UniqueExtHandle.ext_moveAssign_of_eq this other e⟩, key⟩
  intro hret
  by_contra hg
  obtain ⟨e₁, hret₁, ⟨h₁, h₂⟩, _⟩ := key hg
  rw [hret] at hret₁
  have he : e = e₁ := by injection hret₁
  subst he
  exact hg ⟨h₁, h₂⟩

/-- C11, amended, at a concrete input: wrapper 1, which is `(7, 4)`, is moved into
wrapper 0, which is `(5, 3)`. -/
theorem UniqueExtHandle.moveAssign_postcondition_witness :
    (UniqueExtHandle.sample.m_handle 0 = XR_NULL_HANDLE ∨
      UniqueExtHandle.sample.m_destroyer 0 ≠ nullptr) ∧
    ∃ e₁, UniqueExtHandle.moveAssign 0 1 UniqueExtHandle.sample = .returned e₁ ∧
      (e₁.m_handle 0 = 7 ∧ e₁.m_destroyer 0 = 4) ∧
      (e₁.m_handle 1 = XR_NULL_HANDLE ∧ e₁.m_destroyer 1 = nullptr) ∧
      (∀ w, w ≠ 0 → w ≠ 1 →
        e₁.m_handle w = UniqueExtHandle.sample.m_handle w ∧
        e₁.m_destroyer w = UniqueExtHandle.sample.m_destroyer w) ∧
      e₁.calls = [(3, 5)] :=
  ⟨by decide,
   (UniqueExtHandle.moveAssign_postcondition 0 1 UniqueExtHandle.sample (by decide)).2
     (by decide)⟩

/-- C12, as stated, fails: on a wrapper that holds the value 5 with a null destroyer,
`Reset` does not reach a state with a null value: it stops at the call through the null
destroyer, the wrapper still holds 5, and no destroy call has been made. -/
theorem UniqueExtHandle.Reset_null_destroyer_stops :
    UniqueExtHandle.Reset 0 (UniqueExtHandle.fill 0 5 UniqueExtHandle.init)
      = .aborted .nullCall (UniqueExtHandle.fill 0 5 UniqueExtHandle.init) ∧
    UniqueExtHandle.Get 0 (UniqueExtHandle.fill 0 5 UniqueExtHandle.init) = 5 ∧
    (UniqueExtHandle.fill 0 5 UniqueExtHandle.init).m_destroyer 0 = nullptr ∧
    (UniqueExtHandle.fill 0 5 UniqueExtHandle.init).calls = [] ∧
    (5 : HandleType) ≠ XR_NULL_HANDLE :=
  ⟨rfl, by decide, by decide, by decide, by decide⟩

/-- C12, amended: for every wrapper state `(h, f)` in which `h` is null or `f` is
non-null, `Reset` returns, afterwards the value is the null handle and the destroyer is
null, every other wrapper is unchanged, and `f` has been called exactly once with `h` if
`h` was non-null and no destroy function has been called if `h` was null (which includes
the state with a null value and a pending non-null destroyer). -/
theorem UniqueExtHandle.ext_Reset_postcondition (this : Addr) (e : ExtState)
    (h : e.m_handle this = XR_NULL_HANDLE ∨ e.m_destroyer this ≠ nullptr) :
    ∃ e₁, UniqueExtHandle.Reset this e = .returned e₁ ∧
      UniqueExtHandle.Get this e₁ = XR_NULL_HANDLE ∧
      e₁.m_destroyer this = nullptr ∧
      (∀ w, w ≠ this → e₁.m_handle w = e.m_handle w ∧ e₁.m_destroyer w = e.m_destroyer w) ∧
      e₁.calls = e.calls ++
        (if e.m_handle this ≠ XR_NULL_HANDLE then [(e.m_destroyer this, e.m_handle this)]
         else []) := by
  refine ⟨_, UniqueExtHandle.Reset_returns this e h, ?_, ?_, ?_, ?_⟩
  · simp [UniqueExtHandle.Get]
  · simp
  · intro w hw
    simp [Function.update_noteq hw]
  · unfold released
    by_cases hn : e.m_handle this = XR_NULL_HANDLE <;> simp [hn]

/-- C12, amended, at concrete inputs: `Reset` of wrapper 0, which is `(5, 3)`, and of
wrapper 2, which is empty with the pending destroyer 9. -/
theorem UniqueExtHandle.ext_Reset_postcondition_witness :
    ((UniqueExtHandle.sample.m_handle 0 = XR_NULL_HANDLE ∨
        UniqueExtHandle.sample.m_destroyer 0 ≠ nullptr) ∧
      ∃ e₁, UniqueExtHandle.Reset 0 UniqueExtHandle.sample = .returned e₁ ∧
        UniqueExtHandle.Get 0 e₁ = XR_NULL_HANDLE ∧
        e₁.m_destroyer 0 = nullptr ∧
        (∀ w, w ≠ 0 → e₁.m_handle w = UniqueExtHandle.sample.m_handle w ∧
          e₁.m_destroyer w = UniqueExtHandle.sample.m_destroyer w) ∧
        e₁.calls = [(3, 5)]) ∧
    ((UniqueExtHandle.sample.m_handle 2 = XR_NULL_HANDLE ∨
        UniqueExtHandle.sample.m_destroyer 2 ≠ nullptr) ∧
      ∃ e₁, UniqueExtHandle.Reset 2 UniqueExtHandle.sample = .returned e₁ ∧
        UniqueExtHandle.Get 2 e₁ = XR_NULL_HANDLE ∧
        e₁.m_destroyer 2 = nullptr ∧
        (∀ w, w ≠ 2 → e₁.m_handle w = UniqueExtHandle.sample.m_handle w ∧
          e₁.m_destroyer w = UniqueExtHandle.sample.m_destroyer w) ∧
        e₁.calls = []) :=
  ⟨⟨by decide, UniqueExtHandle.ext_Reset_postcondition 0 UniqueExtHandle.sample (by decide)⟩,
   ⟨by decide, UniqueExtHandle.ext_Reset_postcondition 2 UniqueExtHandle.sample (by decide)⟩⟩

theorem Sim.of_init (F : PFN_DestroyFunction) : Sim F UniqueHandle.init UniqueExtHandle.init :=
  ⟨fun _ => rfl, rfl, fun _ h => absurd rfl h⟩

theorem Sim.ext_resettable {F : PFN_DestroyFunction} {s : State} {e : ExtState} (hF : F ≠ nullptr)
    (h : Sim F s e) (w : Addr) :
    e.m_handle w = XR_NULL_HANDLE ∨ e.m_destroyer w ≠ nullptr := by
  by_cases hn : e.m_handle w = XR_NULL_HANDLE
  · exact Or.inl hn
  · exact Or.inr (by rw [h.destroyer w hn]; exact hF)

theorem Sim.calls_after_Reset {F : PFN_DestroyFunction} {s : State} {e : ExtState}
    (h : Sim F s e) (w : Addr) :
    e.calls ++ (released (e.m_handle w)).map (fun v => (e.m_destroyer w, v))
      = (s.calls ++ released (s.m_handle w)).map (fun v => (F, v)) := by
  rw [h.calls, List.map_append, ← h.handle w]
  by_cases hn : e.m_handle w = XR_NULL_HANDLE
  · simp [released, hn]
  · simp [released, hn, h.destroyer w hn]

theorem Sim.after_Reset {F : PFN_DestroyFunction} {s : State} {e : ExtState} (hF : F ≠ nullptr)
    (h : Sim F s e) (w : Addr) :
    ∃ e₁, UniqueExtHandle.Reset w e = .returned e₁ ∧ Sim F (UniqueHandle.Reset w s) e₁ ∧
      e₁.m_handle w = XR_NULL_HANDLE := by
  refine ⟨_, UniqueExtHandle.Reset_returns w e (h.ext_resettable hF w), ⟨?_, ?_, ?_⟩, by simp⟩
  · intro u
    rw [UniqueHandle.Reset_handle]
    by_cases hu : u = w
    · subst hu; simp
    · simp [hu, Function.update_noteq, h.handle u]
  · rw [UniqueHandle.Reset_calls]
    exact h.calls_after_Reset w
  · intro u hu
    by_cases huw : u = w
    · subst huw; simp at hu
    · simp only [ne_eq, huw, not_false_eq_true, Function.update_noteq] at hu ⊢
      exact h.destroyer u hu

theorem Sim.after_acquire {F : PFN_DestroyFunction} {s : State} {e : ExtState} (hF : F ≠ nullptr)
    (h : Sim F s e) (NDEBUG : Bool) (w : Addr) (v : HandleType) :
    ∃ e₁, UniqueExtHandle.step NDEBUG (.acquire w F v) e = .returned e₁ ∧
      Sim F (UniqueHandle.step (.acquire w v) s) e₁ := by
  obtain ⟨e₀, hret, hsim, _⟩ := h.after_Reset hF w
  have hstep : UniqueExtHandle.step NDEBUG (.acquire w F v) e = .returned
      (UniqueExtHandle.fill w v
        { e₀ with m_destroyer := Function.update e₀.m_destroyer w F }) := by
    simp only [UniqueExtHandle.step, UniqueExtHandle.Put_of_ne_nullptr NDEBUG w F e hF,
      hret, Outcome.andThen]
  refine ⟨_, hstep, ⟨?_, ?_, ?_⟩⟩
  · intro u
    by_cases hu : u = w
    · subst hu
      simp [UniqueExtHandle.fill, UniqueHandle.step, UniqueHandle.fill, UniqueHandle.Put]
    · simp [UniqueExtHandle.fill, UniqueHandle.step, UniqueHandle.fill, UniqueHandle.Put,
        Function.update_noteq hu, hsim.handle u]
  · simpa [UniqueExtHandle.fill, UniqueHandle.step, UniqueHandle.fill, UniqueHandle.Put]
      using hsim.calls
  · intro u hu
    by_cases huw : u = w
    · subst huw; simp [UniqueExtHandle.fill]
    · simp only [UniqueExtHandle.fill, ne_eq, huw, not_false_eq_true,
        Function.update_noteq] at hu ⊢
      exact hsim.destroyer u hu

theorem Sim.after_moveAssign {F : PFN_DestroyFunction} {s : State} {e : ExtState} (hF : F ≠ nullptr)
    (h : Sim F s e) (this other : Addr) :
    ∃ e₁, UniqueExtHandle.moveAssign this other e = .returned e₁ ∧
      Sim F (UniqueHandle.moveAssign this other s) e₁ := by
  by_cases hg : e.m_handle this = e.m_handle other ∧ e.m_destroyer this = e.m_destroyer other
  · refine ⟨e, UniqueExtHandle.ext_moveAssign_of_eq this other e hg, ?_⟩
    rw [UniqueHandle.moveAssign_of_eq this other s (by rw [← h.handle, ← h.handle]; exact hg.1)]
    exact h
  · obtain ⟨e₁, hret, hm, hd, hc⟩ :=
      UniqueExtHandle.moveAssign_returns this other e hg (h.ext_resettable hF this)
    refine ⟨e₁, hret, ?_⟩
    by_cases hv : s.m_handle this = s.m_handle other
    · -- equal values, different destroyers: both wrappers are empty
      have hv' : e.m_handle this = e.m_handle other := by
        rw [h.handle, h.handle]; exact hv
      have hnull : e.m_handle this = XR_NULL_HANDLE := by
        by_contra hn
        have h₁ := h.destroyer this hn
        have h₂ := h.destroyer other (hv' ▸ hn)
        exact hg ⟨hv', h₁.trans h₂.symm⟩
      have hnull' : e.m_handle other = XR_NULL_HANDLE := hv' ▸ hnull
      have hsame : ∀ u, e₁.m_handle u = e.m_handle u := by
        intro u
        rw [hm]
        by_cases h₁ : u = other
        · subst h₁; simp [hnull']
        · by_cases h₂ : u = this
          · subst h₂; simp [h₁, hnull, hnull']
          · simp [h₁, h₂]
      rw [UniqueHandle.moveAssign_of_eq this other s hv]
      refine ⟨fun u => (hsame u).trans (h.handle u), ?_, ?_⟩
      · rw [hc, hnull]; simpa [released] using h.calls
      · intro u hu
        rw [hsame u] at hu
        have h₁ : u ≠ other := fun heq => hu (heq ▸ hnull')
        have h₂ : u ≠ this := fun heq => hu (heq ▸ hnull)
        rw [hd]; simp only [h₁, h₂, if_false]
        exact h.destroyer u hu
    · refine ⟨?_, ?_, ?_⟩
      · intro u
        rw [hm, UniqueHandle.moveAssign_handle this other u s hv, h.handle, h.handle]
      · rw [hc, UniqueHandle.moveAssign_calls this other s hv]
        exact h.calls_after_Reset this
      · intro u hu
        rw [hm] at hu
        rw [hd]
        by_cases h₁ : u = other
        · simp [h₁] at hu
        · by_cases h₂ : u = this
          · subst h₂
            simp only [h₁, if_false, if_true] at hu ⊢
            exact h.destroyer other hu
          · simp only [h₁, h₂, if_false] at hu ⊢
            exact h.destroyer u hu

theorem Sim.after_step {F : PFN_DestroyFunction} {s : State} {e : ExtState} (hF : F ≠ nullptr)
    (h : Sim F s e) (NDEBUG : Bool) (op : UniqueHandle.Op) :
    ∃ e₁, UniqueExtHandle.step NDEBUG (UniqueExtHandle.ofStatic F op) e = .returned e₁ ∧
      Sim F (UniqueHandle.step op s) e₁ := by
  cases op with
  | acquire w v => exact h.after_acquire hF NDEBUG w v
  | get w => exact ⟨e, rfl, h⟩
  | reset w =>
    obtain ⟨e₁, hret, hsim, _⟩ := h.after_Reset hF w
    exact ⟨e₁, hret, hsim⟩
  | move dst src => exact h.after_moveAssign hF dst src
  | destroy w =>
    obtain ⟨e₁, hret, hsim, _⟩ := h.after_Reset hF w
    exact ⟨e₁, hret, hsim⟩

theorem Sim.after_run {F : PFN_DestroyFunction} (hF : F ≠ nullptr) (NDEBUG : Bool)
    (ops : List UniqueHandle.Op) :
    ∀ {s : State} {e : ExtState}, Sim F s e →
      ∃ e₁, UniqueExtHandle.run NDEBUG (ops.map (UniqueExtHandle.ofStatic F)) e
          = .returned e₁ ∧
        Sim F (UniqueHandle.run ops s) e₁ ∧
        UniqueExtHandle.observe NDEBUG (ops.map (UniqueExtHandle.ofStatic F)) e
          = .returned (UniqueHandle.observe ops s) := by
  induction ops with
  | nil => intro s e h; exact ⟨e, rfl, h, rfl⟩
  | cons op ops ih =>
    intro s e h
    obtain ⟨e₁, hstep, hsim⟩ := h.after_step hF NDEBUG op
    obtain ⟨e₂, hrun, hsim₂, hobs⟩ := ih hsim
    have hrun' : UniqueHandle.run (op :: ops) s
        = UniqueHandle.run ops (UniqueHandle.step op s) := rfl
    refine ⟨e₂, ?_, hrun' ▸ hsim₂, ?_⟩
    · simp only [List.map_cons, UniqueExtHandle.run, hstep, Outcome.andThen, hrun]
    · cases op with
      | get w =>
        have hstep' : e₁ = e := by
          have : UniqueExtHandle.step NDEBUG (UniqueExtHandle.ofStatic F (.get w)) e
              = .returned e := rfl
          rw [this] at hstep; injection hstep with h'; exact h'.symm
        subst hstep'
        have hs : UniqueHandle.step (.get w) s = s := rfl
        rw [hs] at hobs
        simp only [List.map_cons, UniqueExtHandle.ofStatic, UniqueExtHandle.observe, hobs,
          Outcome.andThen, UniqueHandle.observe, UniqueExtHandle.Get, UniqueHandle.Get,
          h.handle w]
      | acquire w v =>
        simp only [List.map_cons, UniqueExtHandle.ofStatic, UniqueExtHandle.observe,
          UniqueHandle.observe] at hstep ⊢
        rw [hstep]; exact hobs
      | reset w =>
        simp only [List.map_cons, UniqueExtHandle.ofStatic, UniqueExtHandle.observe,
          UniqueHandle.observe] at hstep ⊢
        rw [hstep]; exact hobs
      | move dst src =>
        simp only [List.map_cons, UniqueExtHandle.ofStatic, UniqueExtHandle.observe,
          UniqueHandle.observe] at hstep ⊢
        rw [hstep]; exact hobs
      | destroy w =>
        simp only [List.map_cons, UniqueExtHandle.ofStatic, UniqueExtHandle.observe,
          UniqueHandle.observe] at hstep ⊢
        rw [hstep]; exact hobs

/-- C13: in a build with or without `NDEBUG`, for every non-null destroy function `F`
and every finite sequence of operations
(acquire, `Get`, `Reset`, move-assignment, destruction), the run on `UniqueHandle`
wrappers and the run on `UniqueExtHandle` wrappers in which every `Put` is passed `F`
return the same `Get` results, and after every step (after each prefix of the sequence)
the `UniqueExtHandle` run has returned, corresponding wrappers hold the same value, and
the destroy calls have the same arguments in the same order, all of them calls of `F`. -/
theorem UniqueExtHandle.simulates_static (NDEBUG : Bool) (F : PFN_DestroyFunction)
    (hF : F ≠ nullptr) (ops : List UniqueHandle.Op) :
    UniqueExtHandle.observe NDEBUG (ops.map (UniqueExtHandle.ofStatic F)) UniqueExtHandle.init
      = .returned (UniqueHandle.observe ops UniqueHandle.init) ∧
    ∀ n, ∃ e,
      UniqueExtHandle.run NDEBUG ((ops.take n).map (UniqueExtHandle.ofStatic F))
          UniqueExtHandle.init
        = .returned e ∧
      (∀ w, UniqueExtHandle.Get w e
        = UniqueHandle.Get w (UniqueHandle.run (ops.take n) UniqueHandle.init)) ∧
      e.calls.map Prod.snd = (UniqueHandle.run (ops.take n) UniqueHandle.init).calls ∧
      ∀ c, c ∈ e.calls → c.1 = F := by
  refine ⟨?_, ?_⟩
  · obtain ⟨_, _, _, hobs⟩ := Sim.after_run hF NDEBUG ops (Sim.of_init F)
    exact hobs
  · intro n
    obtain ⟨e, hrun, hsim, _⟩ := Sim.after_run hF NDEBUG (ops.take n) (Sim.of_init F)
    refine ⟨e, hrun, hsim.handle, ?_, ?_⟩
    · rw [hsim.calls, List.map_map]
      simp [Function.comp_def]
    · intro c hc
      rw [hsim.calls, List.mem_map] at hc
      obtain ⟨v, _, rfl⟩ := hc
      rfl

/-- C13 at a concrete input: a build with assertions enabled, destroy function 3 and a
sequence that acquires 5 and 7,
moves wrapper 1 into wrapper 0, resets wrapper 0 and destroys wrapper 1, with `Get` calls
in between. -/
theorem UniqueExtHandle.simulates_static_witness :
    (3 : PFN_DestroyFunction) ≠ nullptr ∧
    (UniqueExtHandle.observe false
        (List.map (UniqueExtHandle.ofStatic 3)
          [.acquire 0 5, .get 0, .acquire 1 7, .move 0 1, .get 0, .get 1, .reset 0,
            .destroy 1])
        UniqueExtHandle.init
      = .returned (UniqueHandle.observe
          [.acquire 0 5, .get 0, .acquire 1 7, .move 0 1, .get 0, .get 1, .reset 0,
            .destroy 1]
          UniqueHandle.init) ∧
    ∀ n, ∃ e,
      UniqueExtHandle.run false
          (List.map (UniqueExtHandle.ofStatic 3)
            (List.take n [.acquire 0 5, .get 0, .acquire 1 7, .move 0 1, .get 0, .get 1,
              .reset 0, .destroy 1]))
          UniqueExtHandle.init
        = .returned e ∧
      (∀ w, UniqueExtHandle.Get w e
        = UniqueHandle.Get w (UniqueHandle.run
            (List.take n [.acquire 0 5, .get 0, .acquire 1 7, .move 0 1, .get 0, .get 1,
              .reset 0, .destroy 1])
            UniqueHandle.init)) ∧
      e.calls.map Prod.snd = (UniqueHandle.run
            (List.take n [.acquire 0 5, .get 0, .acquire 1 7, .move 0 1, .get 0, .get 1,
              .reset 0, .destroy 1])
            UniqueHandle.init).calls ∧
      ∀ c, c ∈ e.calls → c.1 = 3) ∧
    UniqueHandle.observe
      [.acquire 0 5, .get 0, .acquire 1 7, .move 0 1, .get 0, .get 1, .reset 0, .destroy 1]
      UniqueHandle.init = [5, 7, 0] ∧
    (UniqueHandle.run
      [.acquire 0 5, .get 0, .acquire 1 7, .move 0 1, .get 0, .get 1, .reset 0, .destroy 1]
      UniqueHandle.init).calls = [5, 7] :=
  ⟨by decide,
   UniqueExtHandle.simulates_static false 3 (by decide)
     [.acquire 0 5, .get 0, .acquire 1 7, .move 0 1, .get 0, .get 1, .reset 0, .destroy 1],
   by decide, by decide⟩

theorem UniqueExtHandle.Sound.resettable {w : Addr} {e : ExtState}
    (h : UniqueExtHandle.Sound w e) :
    e.m_handle w = XR_NULL_HANDLE ∨ e.m_destroyer w ≠ nullptr := by
  by_cases hn : e.m_handle w = XR_NULL_HANDLE
  · exact Or.inl hn
  · exact Or.inr (h hn)

theorem UniqueExtHandle.Reset_sound (w : Addr) (e : ExtState)
    (h : UniqueExtHandle.Sound w e) :
    ∃ e₁, UniqueExtHandle.Reset w e = .returned e₁ ∧
      e₁.m_handle w = XR_NULL_HANDLE ∧
      (∀ u, u ≠ w → e₁.m_handle u = e.m_handle u ∧ e₁.m_destroyer u = e.m_destroyer u) ∧
      (∀ c, c ∈ e₁.calls → c ∈ e.calls ∨ c.1 ≠ nullptr) := by
  refine ⟨_, UniqueExtHandle.Reset_returns w e h.resettable, by simp, ?_, ?_⟩
  · intro u hu
    simp [Function.update_noteq hu]
  · intro c hc
    simp only [List.mem_append, List.mem_map] at hc
    rcases hc with hc | ⟨v, hv, rfl⟩
    · exact Or.inl hc
    · right
      unfold released at hv
      by_cases hn : e.m_handle w = XR_NULL_HANDLE
      · simp [hn] at hv
      · exact h hn

theorem UniqueExtHandle.Sound.of_eq {u : Addr} {e e₁ : ExtState}
    (h : UniqueExtHandle.Sound u e)
    (heq : e₁.m_handle u = e.m_handle u ∧ e₁.m_destroyer u = e.m_destroyer u) :
    UniqueExtHandle.Sound u e₁ := by
  unfold UniqueExtHandle.Sound at h ⊢
  rw [heq.1, heq.2]; exact h

theorem UniqueExtHandle.Sound.of_null {u : Addr} {e : ExtState}
    (h : e.m_handle u = XR_NULL_HANDLE) : UniqueExtHandle.Sound u e :=
  fun hn => absurd h hn

theorem UniqueExtHandle.Reset_preserves_sound (w : Addr) (e : ExtState)
    (h : UniqueExtHandle.Sound w e) :
    ∃ e₁, UniqueExtHandle.Reset w e = .returned e₁ ∧
      (∀ u, (u = w ∨ UniqueExtHandle.Sound u e) → UniqueExtHandle.Sound u e₁) ∧
      (∀ c, c ∈ e₁.calls → c ∈ e.calls ∨ c.1 ≠ nullptr) := by
  obtain ⟨e₁, hret, hnull, hframe, hcalls⟩ := UniqueExtHandle.Reset_sound w e h
  refine ⟨e₁, hret, ?_, hcalls⟩
  intro u hu
  by_cases huw : u = w
  · subst huw; exact UniqueExtHandle.Sound.of_null hnull
  · exact (hu.resolve_left huw).of_eq (hframe u huw)

theorem UniqueExtHandle.Put_fill_preserves_sound (NDEBUG : Bool) (w : Addr)
    (f : PFN_DestroyFunction) (v : HandleType) (e : ExtState) (hf : f ≠ nullptr)
    (h : UniqueExtHandle.Sound w e) :
    ∃ p, UniqueExtHandle.Put NDEBUG w f e = .returned p ∧ p.1 = w ∧
      (∀ u, (u = w ∨ UniqueExtHandle.Sound u e) →
        UniqueExtHandle.Sound u (UniqueExtHandle.fill p.1 v p.2)) ∧
      (∀ c, c ∈ (UniqueExtHandle.fill p.1 v p.2).calls → c ∈ e.calls ∨ c.1 ≠ nullptr) := by
  obtain ⟨e₁, hret, _, hframe, hcalls⟩ := UniqueExtHandle.Reset_sound w e h
  have hput : UniqueExtHandle.Put NDEBUG w f e = .returned
      (w, { e₁ with m_destroyer := Function.update e₁.m_destroyer w f }) := by
    simp only [UniqueExtHandle.Put_of_ne_nullptr NDEBUG w f e hf, hret, Outcome.andThen]
  refine ⟨_, hput, rfl, ?_, hcalls⟩
  intro u hu
  by_cases huw : u = w
  · subst huw
    intro _
    simpa [UniqueExtHandle.fill] using hf
  · have hs := (hu.resolve_left huw).of_eq (hframe u huw)
    intro hn
    simp only [UniqueExtHandle.fill, ne_eq, huw, not_false_eq_true,
      Function.update_noteq] at hn ⊢
    exact hs hn

theorem UniqueExtHandle.moveAssign_preserves_sound (this other : Addr) (e : ExtState)
    (hd : UniqueExtHandle.Sound this e) (hs : UniqueExtHandle.Sound other e) :
    ∃ e₁, UniqueExtHandle.moveAssign this other e = .returned e₁ ∧
      (∀ u, (u = this ∨ u = other ∨ UniqueExtHandle.Sound u e) →
        UniqueExtHandle.Sound u e₁) ∧
      (∀ c, c ∈ e₁.calls → c ∈ e.calls ∨ c.1 ≠ nullptr) := by
  by_cases hg : e.m_handle this = e.m_handle other ∧ e.m_destroyer this = e.m_destroyer other
  · refine ⟨e, UniqueExtHandle.ext_moveAssign_of_eq this other e hg, ?_, fun c hc => Or.inl hc⟩
    rintro u (rfl | rfl | hu)
    · exact hd
    · exact hs
    · exact hu
  · obtain ⟨e₁, hret, hm, hdest, hc⟩ :=
      UniqueExtHandle.moveAssign_returns this other e hg hd.resettable
    refine ⟨e₁, hret, ?_, ?_⟩
    · intro u hu
      by_cases h₁ : u = other
      · exact UniqueExtHandle.Sound.of_null (by rw [hm]; simp [h₁])
      · by_cases h₂ : u = this
        · subst h₂
          intro hn
          rw [hm] at hn
          rw [hdest]
          simp only [h₁, if_false, if_true] at hn ⊢
          exact hs hn
        · have hu' : UniqueExtHandle.Sound u e := by
            rcases hu with h | h | h
            · exact absurd h h₂
            · exact absurd h h₁
            · exact h
          exact hu'.of_eq ⟨by rw [hm]; simp [h₁, h₂], by rw [hdest]; simp [h₁, h₂]⟩
    · intro c hmem
      rw [hc] at hmem
      simp only [List.mem_append, List.mem_map] at hmem
      rcases hmem with hmem | ⟨v, hv, rfl⟩
      · exact Or.inl hmem
      · right
        unfold released at hv
        by_cases hn : e.m_handle this = XR_NULL_HANDLE
        · simp [hn] at hv
        · exact hd hn

theorem UniqueExtHandle.moveConstruct_preserves_sound (this other : Addr) (e : ExtState)
    (hs : UniqueExtHandle.Sound other e) :
    ∃ e₁, UniqueExtHandle.moveConstruct this other e = .returned e₁ ∧
      (∀ u, (u = this ∨ u = other ∨ UniqueExtHandle.Sound u e) →
        UniqueExtHandle.Sound u e₁) ∧
      (∀ c, c ∈ e₁.calls → c ∈ e.calls ∨ c.1 ≠ nullptr) := by
  have hthis : UniqueExtHandle.Sound this
      { e with
        m_handle := Function.update e.m_handle this XR_NULL_HANDLE,
        m_destroyer := Function.update e.m_destroyer this nullptr } :=
    UniqueExtHandle.Sound.of_null (by simp)
  have hframe : ∀ u, UniqueExtHandle.Sound u e → UniqueExtHandle.Sound u
      { e with
        m_handle := Function.update e.m_handle this XR_NULL_HANDLE,
        m_destroyer := Function.update e.m_destroyer this nullptr } := by
    intro u hu
    by_cases h : u = this
    · subst h; exact hthis
    · exact hu.of_eq ⟨by simp [Function.update_noteq h], by simp [Function.update_noteq h]⟩
  obtain ⟨e₁, hret, hsound, hcalls⟩ :=
    UniqueExtHandle.moveAssign_preserves_sound this other _ hthis (hframe other hs)
  refine ⟨e₁, hret, ?_, hcalls⟩
  rintro u (h | h | h)
  · exact hsound u (Or.inl h)
  · exact hsound u (Or.inr (Or.inl h))
  · exact hsound u (Or.inr (Or.inr (hframe u h)))

theorem UniqueExtHandle.destroyers_cons (op : UniqueExtHandle.Op)
    (ops : List UniqueExtHandle.Op) :
    UniqueExtHandle.destroyers (op :: ops)
      = UniqueExtHandle.destroyers [op] ++ UniqueExtHandle.destroyers ops := by
  cases op <;> simp [UniqueExtHandle.destroyers]

theorem UniqueExtHandle.step_preserves_sound (NDEBUG : Bool) (op : UniqueExtHandle.Op)
    (e : ExtState)
    (hop : nullptr ∉ UniqueExtHandle.destroyers [op])
    (hs : ∀ w, UniqueExtHandle.Sound w e) (hc : ∀ c, c ∈ e.calls → c.1 ≠ nullptr) :
    ∃ e₁, UniqueExtHandle.step NDEBUG op e = .returned e₁ ∧
      (∀ w, UniqueExtHandle.Sound w e₁) ∧ (∀ c, c ∈ e₁.calls → c.1 ≠ nullptr) := by
  have hcalls : ∀ {e₁ : ExtState}, (∀ c, c ∈ e₁.calls → c ∈ e.calls ∨ c.1 ≠ nullptr) →
      ∀ c, c ∈ e₁.calls → c.1 ≠ nullptr := by
    intro e₁ h c hmem
    rcases h c hmem with h' | h'
    · exact hc c h'
    · exact h'
  cases op with
  | acquire w f v =>
    have hf : f ≠ nullptr := by
      intro h; apply hop; simp [UniqueExtHandle.destroyers, h]
    obtain ⟨p, hret, _, hsound, hcl⟩ :=
      UniqueExtHandle.Put_fill_preserves_sound NDEBUG w f v e hf (hs w)
    refine ⟨_, by simp only [UniqueExtHandle.step, hret, Outcome.andThen],
      fun u => hsound u (Or.inr (hs u)), hcalls hcl⟩
  | get w => exact ⟨e, rfl, hs, hc⟩
  | reset w =>
    obtain ⟨e₁, hret, hsound, hcl⟩ := UniqueExtHandle.Reset_preserves_sound w e (hs w)
    exact ⟨e₁, hret, fun u => hsound u (Or.inr (hs u)), hcalls hcl⟩
  | move dst src =>
    obtain ⟨e₁, hret, hsound, hcl⟩ :=
      UniqueExtHandle.moveAssign_preserves_sound dst src e (hs dst) (hs src)
    exact ⟨e₁, hret, fun u => hsound u (Or.inr (Or.inr (hs u))), hcalls hcl⟩
  | construct w src =>
    obtain ⟨e₁, hret, hsound, hcl⟩ :=
      UniqueExtHandle.moveConstruct_preserves_sound w src e (hs src)
    exact ⟨e₁, hret, fun u => hsound u (Or.inr (Or.inr (hs u))), hcalls hcl⟩
  | destroy w =>
    obtain ⟨e₁, hret, hsound, hcl⟩ := UniqueExtHandle.Reset_preserves_sound w e (hs w)
    exact ⟨e₁, hret, fun u => hsound u (Or.inr (hs u)), hcalls hcl⟩

theorem UniqueExtHandle.run_preserves_sound (NDEBUG : Bool)
    (ops : List UniqueExtHandle.Op) :
    ∀ (e : ExtState), nullptr ∉ UniqueExtHandle.destroyers ops →
      (∀ w, UniqueExtHandle.Sound w e) → (∀ c, c ∈ e.calls → c.1 ≠ nullptr) →
      ∃ e₁, UniqueExtHandle.run NDEBUG ops e = .returned e₁ ∧
        (∀ w, UniqueExtHandle.Sound w e₁) ∧ (∀ c, c ∈ e₁.calls → c.1 ≠ nullptr) := by
  induction ops with
  | nil => intro e _ hs hc; exact ⟨e, rfl, hs, hc⟩
  | cons op ops ih =>
    intro e hops hs hc
    rw [UniqueExtHandle.destroyers_cons, List.mem_append, not_or] at hops
    obtain ⟨e₁, hstep, hs₁, hc₁⟩ :=
      UniqueExtHandle.step_preserves_sound NDEBUG op e hops.1 hs hc
    obtain ⟨e₂, hrun, hs₂, hc₂⟩ := ih e₁ hops.2 hs₁ hc₁
    exact ⟨e₂, by simp only [UniqueExtHandle.run, hstep, Outcome.andThen, hrun], hs₂, hc₂⟩

/-- C14: in a build with or without `NDEBUG`, the predicate "value non-null implies
destroyer non-null" (`Sound`) holds for
every default-constructed wrapper; `Put(f)` with `f` non-null followed by a fill of the
returned slot, `Reset`, move-assignment between wrappers that satisfy it, and
move-construction from a wrapper that satisfies it all return and leave the wrappers
involved, and every other wrapper that satisfied it, satisfying it.  Hence every sequence
of such operations from default-constructed wrappers returns, never having stopped at a
call through a null destroyer: in the state reached every wrapper satisfies the
predicate, every destroy call logged was made through a non-null destroyer, and `Reset`
of any wrapper returns. -/
theorem UniqueExtHandle.never_calls_null_destroyer (NDEBUG : Bool) :
    (∀ w, UniqueExtHandle.Sound w UniqueExtHandle.init) ∧
    (∀ (e : ExtState) (w : Addr) (f : PFN_DestroyFunction) (v : HandleType),
      f ≠ nullptr → UniqueExtHandle.Sound w e →
      ∃ p, UniqueExtHandle.Put NDEBUG w f e = .returned p ∧ p.1 = w ∧
        ∀ u, (u = w ∨ UniqueExtHandle.Sound u e) →
          UniqueExtHandle.Sound u (UniqueExtHandle.fill p.1 v p.2)) ∧
    (∀ (e : ExtState) (w : Addr), UniqueExtHandle.Sound w e →
      ∃ e₁, UniqueExtHandle.Reset w e = .returned e₁ ∧
        ∀ u, (u = w ∨ UniqueExtHandle.Sound u e) → UniqueExtHandle.Sound u e₁) ∧
    (∀ (e : ExtState) (dst src : Addr),
      UniqueExtHandle.Sound dst e → UniqueExtHandle.Sound src e →
      ∃ e₁, UniqueExtHandle.moveAssign dst src e = .returned e₁ ∧
        ∀ u, (u = dst ∨ u = src ∨ UniqueExtHandle.Sound u e) → UniqueExtHandle.Sound u e₁) ∧
    (∀ (e : ExtState) (w src : Addr), UniqueExtHandle.Sound src e →
      ∃ e₁, UniqueExtHandle.moveConstruct w src e = .returned e₁ ∧
        ∀ u, (u = w ∨ u = src ∨ UniqueExtHandle.Sound u e) → UniqueExtHandle.Sound u e₁) ∧
    (∀ ops : List UniqueExtHandle.Op, nullptr ∉ UniqueExtHandle.destroyers ops →
      ∃ e₁, UniqueExtHandle.run NDEBUG ops UniqueExtHandle.init = .returned e₁ ∧
        (∀ w, UniqueExtHandle.Sound w e₁) ∧
        (∀ c, c ∈ e₁.calls → c.1 ≠ nullptr) ∧
        ∀ w, ∃ e₂, UniqueExtHandle.Reset w e₁ = .returned e₂) := by
  have hinit : ∀ w, UniqueExtHandle.Sound w UniqueExtHandle.init :=
    fun w => UniqueExtHandle.Sound.of_null rfl
  refine ⟨hinit, ?_, ?_, ?_, ?_, ?_⟩
  · intro e w f v hf h
    obtain ⟨p, hret, hp, hsound, _⟩ :=
      UniqueExtHandle.Put_fill_preserves_sound NDEBUG w f v e hf h
    exact ⟨p, hret, hp, hsound⟩
  · intro e w h
    obtain ⟨e₁, hret, hsound, _⟩ := UniqueExtHandle.Reset_preserves_sound w e h
    exact ⟨e₁, hret, hsound⟩
  · intro e dst src hd hs
    obtain ⟨e₁, hret, hsound, _⟩ := UniqueExtHandle.moveAssign_preserves_sound dst src e hd hs
    exact ⟨e₁, hret, hsound⟩
  · intro e w src hs
    obtain ⟨e₁, hret, hsound, _⟩ := UniqueExtHandle.moveConstruct_preserves_sound w src e hs
    exact ⟨e₁, hret, hsound⟩
  · intro ops hops
    obtain ⟨e₁, hrun, hsound, hcalls⟩ :=
      UniqueExtHandle.run_preserves_sound NDEBUG ops UniqueExtHandle.init hops hinit
        (fun c hc => by simp [UniqueExtHandle.init] at hc)
    refine ⟨e₁, hrun, hsound, hcalls, ?_⟩
    intro w
    exact ⟨_, UniqueExtHandle.Reset_returns w e₁ (hsound w).resettable⟩

/-- C14 at a concrete input, in a build with `NDEBUG`: 5 is acquired by wrapper 0 with destroyer 3, wrapper 1 is
move-constructed from wrapper 0, 7 is acquired by wrapper 2 with destroyer 4, wrapper 2
is moved into wrapper 1, wrapper 1 is reset and wrapper 0 is destroyed. -/
theorem UniqueExtHandle.never_calls_null_destroyer_witness :
    nullptr ∉ UniqueExtHandle.destroyers
      [.acquire 0 3 5, .construct 1 0, .acquire 2 4 7, .move 1 2, .reset 1, .destroy 0] ∧
    ∃ e₁, UniqueExtHandle.run true
        [.acquire 0 3 5, .construct 1 0, .acquire 2 4 7, .move 1 2, .reset 1, .destroy 0]
        UniqueExtHandle.init = .returned e₁ ∧
      (∀ w, UniqueExtHandle.Sound w e₁) ∧
      (∀ c, c ∈ e₁.calls → c.1 ≠ nullptr) ∧
      ∀ w, ∃ e₂, UniqueExtHandle.Reset w e₁ = .returned e₂ :=
  ⟨by decide,
   (UniqueExtHandle.never_calls_null_destroyer true).2.2.2.2.2
     [.acquire 0 3 5, .construct 1 0, .acquire 2 4 7, .move 1 2, .reset 1, .destroy 0]
     (by decide)⟩

theorem UniqueHandle.moveConstruct_spec (this other : Addr) (s : State) (hne : this ≠ other) :
    (UniqueHandle.moveConstruct this other s).calls = s.calls ∧
    (∀ w, (UniqueHandle.moveConstruct this other s).m_handle w
      = if w = other then XR_NULL_HANDLE
        else if w = this then s.m_handle other else s.m_handle w) := by
  have h₀ : (Function.update s.m_handle this XR_NULL_HANDLE) this = XR_NULL_HANDLE := by simp
  have h₁ : (Function.update s.m_handle this XR_NULL_HANDLE) other = s.m_handle other :=
    Function.update_noteq (Ne.symm hne) _ _
  unfold UniqueHandle.moveConstruct
  by_cases hn : s.m_handle other = XR_NULL_HANDLE
  · rw [UniqueHandle.moveAssign_of_eq this other _ (by simp only [h₀, h₁, hn])]
    refine ⟨rfl, ?_⟩
    intro w
    by_cases hw₁ : w = other
    · subst hw₁; simp [h₁, hn]
    · by_cases hw₂ : w = this
      · subst hw₂; simp [hw₁, hn]
      · simp [hw₁, hw₂, Function.update_noteq]
  · have hg : ({ s with m_handle := Function.update s.m_handle this XR_NULL_HANDLE } :
        State).m_handle this
        ≠ ({ s with m_handle := Function.update s.m_handle this XR_NULL_HANDLE } :
        State).m_handle other := by
      simp only [h₀, h₁]; exact Ne.symm hn
    refine ⟨?_, ?_⟩
    · rw [UniqueHandle.moveAssign_calls this other _ hg]
      simp [released]
    · intro w
      rw [UniqueHandle.moveAssign_handle this other w _ hg]
      by_cases hw₁ : w = other
      · simp [hw₁]
      · by_cases hw₂ : w = this
        · subst hw₂; simp [hw₁, h₁]
        · simp [hw₁, hw₂, Function.update_noteq]

theorem UniqueExtHandle.ext_moveConstruct_spec (this other : Addr) (e : ExtState)
    (hne : this ≠ other) :
    ∃ e₁, UniqueExtHandle.moveConstruct this other e = .returned e₁ ∧
      e₁.calls = e.calls ∧
      (∀ w, e₁.m_handle w = if w = other then XR_NULL_HANDLE
        else if w = this then e.m_handle other else e.m_handle w) ∧
      (∀ w, e₁.m_destroyer w = if w = other then nullptr
        else if w = this then e.m_destroyer other else e.m_destroyer w) := by
  have hno : other ≠ this := Ne.symm hne
  unfold UniqueExtHandle.moveConstruct
  by_cases hg : e.m_handle other = XR_NULL_HANDLE ∧ e.m_destroyer other = nullptr
  · refine ⟨_, UniqueExtHandle.ext_moveAssign_of_eq this other _
      (by simp [Function.update_noteq hno, hg.1, hg.2]), rfl, ?_, ?_⟩
    · intro w
      by_cases hw₁ : w = other
      · subst hw₁; simp [Function.update_noteq hno, hg.1]
      · by_cases hw₂ : w = this
        · subst hw₂; simp [hw₁, hg.1]
        · simp [hw₁, hw₂, Function.update_noteq]
    · intro w
      by_cases hw₁ : w = other
      · subst hw₁; simp [Function.update_noteq hno, hg.2]
      · by_cases hw₂ : w = this
        · subst hw₂; simp [hw₁, hg.2]
        · simp [hw₁, hw₂, Function.update_noteq]
  · obtain ⟨e₁, hret, hm, hd, hc⟩ := UniqueExtHandle.moveAssign_returns this other
      { e with
        m_handle := Function.update e.m_handle this XR_NULL_HANDLE,
        m_destroyer := Function.update e.m_destroyer this nullptr }
      (by
        simp only [Function.update_same, Function.update_noteq hno]
        rintro ⟨h₁, h₂⟩
        exact hg ⟨h₁.symm, h₂.symm⟩)
      (Or.inl (by simp))
    refine ⟨e₁, hret, ?_, ?_, ?_⟩
    · rw [hc]; simp [released]
    · intro w
      rw [hm]
      by_cases hw₁ : w = other
      · simp [hw₁]
      · by_cases hw₂ : w = this
        · subst hw₂; simp [hw₁, Function.update_noteq hno]
        · simp [hw₁, hw₂, Function.update_noteq]
    · intro w
      rw [hd]
      by_cases hw₁ : w = other
      · simp [hw₁]
      · by_cases hw₂ : w = this
        · subst hw₂; simp [hw₁, Function.update_noteq hno]
        · simp [hw₁, hw₂, Function.update_noteq]

/-- C15: for every state of the source wrapper, of `UniqueHandle` or `UniqueExtHandle`,
constructing a new wrapper (a different object) by move from it calls no destroy
function, the new wrapper's `Get` returns the source's former value, and the source's
value afterwards is the null handle; for `UniqueExtHandle` the construction returns in
every state and the new wrapper carries the source's former destroyer (whether or not the
value was non-null). -/
theorem moveConstruct_releases_nothing (this other : Addr) (s : State) (e : ExtState)
    (hne : this ≠ other) :
    ((UniqueHandle.moveConstruct this other s).calls = s.calls ∧
      UniqueHandle.Get this (UniqueHandle.moveConstruct this other s) = s.m_handle other ∧
      UniqueHandle.Get other (UniqueHandle.moveConstruct this other s) = XR_NULL_HANDLE) ∧
    ∃ e₁, UniqueExtHandle.moveConstruct this other e = .returned e₁ ∧
      e₁.calls = e.calls ∧
      UniqueExtHandle.Get this e₁ = e.m_handle other ∧
      e₁.m_destroyer this = e.m_destroyer other ∧
      UniqueExtHandle.Get other e₁ = XR_NULL_HANDLE := by
  obtain ⟨hc, hm⟩ := UniqueHandle.moveConstruct_spec this other s hne
  obtain ⟨e₁, hret, hc₁, hm₁, hd₁⟩ := UniqueExtHandle.ext_moveConstruct_spec this other e hne
  refine ⟨⟨hc, ?_, ?_⟩, e₁, hret, hc₁, ?_, ?_, ?_⟩
  · simp [UniqueHandle.Get, hm, hne]
  · simp [UniqueHandle.Get, hm]
  · simp [UniqueExtHandle.Get, hm₁, hne]
  · simp [hd₁, hne]
  · simp [UniqueExtHandle.Get, hm₁]

/-- C15 at a concrete input: a new wrapper at address 6 is move-constructed from
wrapper 0, which owns 5 (with destroyer 3 in the `UniqueExtHandle` state). -/
theorem moveConstruct_releases_nothing_witness :
    (6 : Addr) ≠ 0 ∧
    (((UniqueHandle.moveConstruct 6 0
          (UniqueHandle.run [.acquire 0 5] UniqueHandle.init)).calls
        = (UniqueHandle.run [.acquire 0 5] UniqueHandle.init).calls ∧
      UniqueHandle.Get 6 (UniqueHandle.moveConstruct 6 0
          (UniqueHandle.run [.acquire 0 5] UniqueHandle.init)) = 5 ∧
      UniqueHandle.Get 0 (UniqueHandle.moveConstruct 6 0
          (UniqueHandle.run [.acquire 0 5] UniqueHandle.init)) = XR_NULL_HANDLE) ∧
    ∃ e₁, UniqueExtHandle.moveConstruct 6 0 UniqueExtHandle.sample = .returned e₁ ∧
      e₁.calls = UniqueExtHandle.sample.calls ∧
      UniqueExtHandle.Get 6 e₁ = 5 ∧
      e₁.m_destroyer 6 = 3 ∧
      UniqueExtHandle.Get 0 e₁ = XR_NULL_HANDLE) :=
  ⟨by decide,
   moveConstruct_releases_nothing 6 0 (UniqueHandle.run [.acquire 0 5] UniqueHandle.init)
     UniqueExtHandle.sample (by decide)⟩

end xr
